import Mathlib

/-!
Verification of the QMK keymap text parser and splice editor
(`src/QMK/parsing.ts` of the keymapceditor repository).

The TypeScript source is embedded shallowly: strings become `List Char`,
absolute string positions become `Nat` indices, thrown exceptions become
`Except ParseErr`, and the imperative character loop of `main` becomes the
fuel-indexed recursion `mainLoop`.  The fuel only bounds the number of loop
iterations (each iteration of the source loop advances `pos` by at least
one, so `expr.length + 1` is always enough); running out of fuel is a
distinct error constructor that never fires at the fuel used by the
entry points.
-/

namespace Keymapc

/-- JavaScript `\s` character class (the whitespace characters matched by the
`/^\s+/`, `/\s+$/` and `/\s/` regexes in `tokenWithoutSpaces` / `addWord`). -/
def isJsSpace (c : Char) : Bool :=
  c.toNat = 32 || c.toNat = 9 || c.toNat = 10 || c.toNat = 11 || c.toNat = 12 ||
  c.toNat = 13 || c.toNat = 0xa0 || c.toNat = 0x1680 ||
  (0x2000 ≤ c.toNat && c.toNat ≤ 0x200a) ||
  c.toNat = 0x2028 || c.toNat = 0x2029 || c.toNat = 0x202f ||
  c.toNat = 0x205f || c.toNat = 0x3000 || c.toNat = 0xfeff

/-- `s.slice(a, b)` of JavaScript for non-negative `a ≤ b` (and the empty
list when `b ≤ a`, as JavaScript yields `""` then). -/
def jsSlice (s : List Char) (a b : Nat) : List Char :=
  (s.take b).drop a

/-- `tokenWithoutSpaces` of the source: returns the index of the first
non-whitespace character together with the whitespace-trimmed slice. -/
def tokenWithoutSpaces (s : List Char) : Nat × List Char :=
  let lead := (s.takeWhile isJsSpace).length
  let trail := (s.reverse.takeWhile isJsSpace).length
  (lead, jsSlice s lead (s.length - trail))

/-- Syntax-tree nodes (`AstWord` and `AstFunction` of the source).
`endPos` is the source's `end` field. -/
inductive AstNode where
  | word (content : List Char) (offset : Nat) (endPos : Nat)
  | func (funcName : List Char) (params : List AstNode) (offset : Nat)
      (endPos : Nat) (content : List Char)

/-- The `offset` field of a node. -/
def AstNode.offset : AstNode → Nat
  | .word _ o _ => o
  | .func _ _ o _ _ => o

/-- The `end` field of a node. -/
def AstNode.endPos : AstNode → Nat
  | .word _ _ e => e
  | .func _ _ _ e _ => e

/-- The `content` field of a node. -/
def AstNode.content : AstNode → List Char
  | .word c _ _ => c
  | .func _ _ _ _ c => c

/-- The failure modes of the parser.  All but the last two correspond to
`throw new Error(...)` sites of the source; `emptyParamsAccess` models the
JavaScript `TypeError` raised by `params.slice(-1)[0].end` when `params` is
empty, and `outOfFuel` is the (unreachable at the fuel used) artifact of the
fuel-indexed embedding. -/
inductive ParseErr where
  | missingToken (pos : Nat)
  | whitespaceInToken (pos : Nat)
  | funcNameRequired (pos : Nat)
  | funcNameWhitespace (pos : Nat)
  | unbalancedParens
  | inconsistentLayerSize
  | unexpectedKeyCount (got : Nat) (expected : Nat)
  | keymapsNotFound
  | emptyParamsAccess
  | outOfFuel
deriving Repr, DecidableEq

/-- First index (relative to the head of the list) at which character `a`
is immediately followed by character `b`; mirrors the scan of the block
comment loop, which never matches `a` at the last position. -/
def findPairAux (a b : Char) : List Char → Option Nat
  | [] => none
  | [_] => none
  | x :: y :: rest =>
    if x = a ∧ y = b then some 0 else (findPairAux a b (y :: rest)).map (· + 1)

/-- First index of character `a` in the list. -/
def findCharAux (a : Char) : List Char → Option Nat
  | [] => none
  | x :: rest =>
    if x = a then some 0 else (findCharAux a rest).map (· + 1)

/-- First index at which `pat` occurs as a contiguous sublist; mirrors
`String.prototype.indexOf` applied from a given offset (the caller drops
the offset prefix first). -/
def indexOfFromAux (pat : List Char) : List Char → Option Nat
  | [] => none
  | x :: rest =>
    if pat.isPrefixOf (x :: rest) then some 0
    else (indexOfFromAux pat rest).map (· + 1)

/-- The invocation marker scanned for by the top-level loop. -/
def keymapMarker : List Char := "KEYMAP(".data

/-- `addWord` of the source.  `e` is the absolute flush position (the
source's `end` argument); returns the possibly-extended node list and
whether a word was pushed. -/
def addWord (expr : List Char) (start : Nat) (arr : List AstNode) (e : Nat) :
    Except ParseErr (List AstNode × Bool) :=
  if e ≤ start then .ok (arr, false)
  else
    let ot := tokenWithoutSpaces (jsSlice expr start e)
    if ot.2 = [] then .ok (arr, false)
    else if ot.2.any isJsSpace then .error (.whitespaceInToken (start + ot.1))
    else .ok (arr ++ [.word ot.2 (start + ot.1) e], true)

/-- `ensureTokenExists` of the source; the returned value is the updated
`lastToken`. -/
def ensureTokenExists (pos : Nat) (arr : List AstNode) (lastToken : Int) :
    Except ParseErr Int :=
  if lastToken = (arr.length : Int) ∨ arr.length = 0 then .error (.missingToken pos)
  else .ok (arr.length : Int)

/-- One iteration of the character loop of `main`, given the character `c`
read at `pos` (so the source's post-increment `pos` is `pos + 1` here) and
the recursion `recur start pos arr lastToken pcount` for the continuation
of the loop.  The three two-character dispatches (line continuation, block
comment, line comment) come first; a space or any other undispatched
character merely advances the cursor. -/
def mainBody (expr : List Char)
    (recur : Nat → Nat → List AstNode → Int → Int →
      Except ParseErr (List AstNode × Nat × Int))
    (start pos : Nat) (arr : List AstNode) (lastToken pcount : Int) (c : Char) :
    Except ParseErr (List AstNode × Nat × Int) :=
  let next := expr.get? (pos + 1)
  if c = '\\' ∧ next = some '\n' then
    recur (pos + 2) (pos + 2) arr lastToken pcount
  else if c = '/' ∧ next = some '*' then
    match addWord expr start arr pos with
    | .error err => .error err
    | .ok (arr, _) =>
      match findPairAux '*' '/' (expr.drop (pos + 1)) with
      | some j => recur (pos + 1 + j + 2) (pos + 1 + j + 2) arr lastToken pcount
      | none => recur start expr.length arr lastToken pcount
  else if c = '/' ∧ next = some '/' then
    match addWord expr start arr pos with
    | .error err => .error err
    | .ok (arr, _) =>
      match findCharAux '\n' (expr.drop (pos + 1)) with
      | some j => recur (pos + 1 + j + 2) (pos + 1 + j + 2) arr lastToken pcount
      | none => recur start expr.length arr lastToken pcount
  else if c = ',' then
    match addWord expr start arr pos with
    | .error err => .error err
    | .ok (arr, _) =>
      match ensureTokenExists (pos + 1) arr lastToken with
      | .error err => .error err
      | .ok lastToken => recur (pos + 1) (pos + 1) arr lastToken pcount
  else if c = '(' then
    if pos ≤ start then .error (.funcNameRequired pos)
    else
      let ot := tokenWithoutSpaces (jsSlice expr start pos)
      if ot.2 = [] then .error (.funcNameRequired (start + ot.1))
      else if ot.2.any isJsSpace then .error (.funcNameWhitespace (start + ot.1))
      else
        match recur (pos + 1) (pos + 1) [] (-1) pcount with
        | .error err => .error err
        | .ok (params, pos2, pcount2) =>
          match params.getLast? with
          | none => .error .emptyParamsAccess
          | some lastParam =>
            let pe := lastParam.endPos
            let node : AstNode :=
              .func ot.2 params (start + ot.1) (pe + 1)
                (jsSlice expr (start + ot.1) (pe + 1))
            recur pos2 pos2 (arr ++ [node]) lastToken (pcount2 + 1)
  else if c = ')' then
    match addWord expr start arr pos with
    | .error err => .error err
    | .ok (arr, _) =>
      match ensureTokenExists (pos + 1) arr lastToken with
      | .error err => .error err
      | .ok _ => .ok (arr, pos + 1, pcount - 1)
  else
    recur start (pos + 1) arr lastToken pcount

/-- The character loop of `main`.  `start` and `pos` are the source's
mutable cursors (absolute indices into `expr`), `arr` the accumulated
argument list, `lastToken` and `pcount` the source's homonymous mutable
variables.  Returns the argument list together with the final `pos` and
`pcount`.  One unit of fuel is spent per loop iteration. -/
def mainLoop (expr : List Char) (fuel : Nat) (start pos : Nat)
    (arr : List AstNode) (lastToken pcount : Int) :
    Except ParseErr (List AstNode × Nat × Int) :=
  match expr.get? pos with
  | none => .ok (arr, pos, pcount)
  | some c =>
    match fuel with
    | 0 => .error .outOfFuel
    | fuel + 1 =>
      mainBody expr (mainLoop expr fuel) start pos arr lastToken pcount c

/-- The top-level scan of `tryParseKeymapsText`: repeatedly find the next
`"KEYMAP("` occurrence, parse one argument list with `mainLoop`, check the
parenthesis balance, and accumulate layers.  Returns the layers together
with the final cursor position (the source's `_endParsingPosition`). -/
def scanKeymaps (expr : List Char) (fuel : Nat) (pos : Nat)
    (acc : List (List AstNode)) :
    Except ParseErr (List (List AstNode) × Nat) :=
  match indexOfFromAux keymapMarker (expr.drop pos) with
    | none => .ok (acc, pos)
    | some j =>
      match fuel with
      | 0 => .error .outOfFuel
      | fuel + 1 =>
        match mainLoop expr (expr.length + 1) (pos + j + 7) (pos + j + 7) [] (-1) 1 with
        | .error err => .error err
        | .ok (keymap, pos', pcount') =>
          if pcount' ≠ 0 then .error .unbalancedParens
          else scanKeymaps expr fuel pos' (acc ++ [keymap])

/-- `tryParseKeymapsText` of the source, also returning the final cursor
position (the `_returnOnlyEndHack` metadata used by `addLayerKeymaps`). -/
def tryParseKeymapsTextWithEnd (expr : List Char) (keyCount : Option Nat) :
    Except ParseErr (List (List AstNode) × Nat) :=
  match scanKeymaps expr (expr.length + 1) 0 [] with
  | .error err => .error err
  | .ok (keymaps, pos) =>
    if keymaps.length ≥ 1 then
      if keymaps.any (fun t => t.length ≠ (keymaps.headD []).length) then
        .error .inconsistentLayerSize
      else
        match keyCount with
        | some kc =>
          if (keymaps.headD []).length ≠ kc then
            .error (.unexpectedKeyCount (keymaps.headD []).length kc)
          else .ok (keymaps, pos)
        | none => .ok (keymaps, pos)
    else .error .keymapsNotFound

/-- `tryParseKeymapsText` of the source (the parse tree alone). -/
def tryParseKeymapsText (expr : List Char) (keyCount : Option Nat) :
    Except ParseErr (List (List AstNode)) :=
  match tryParseKeymapsTextWithEnd expr keyCount with
  | .error err => .error err
  | .ok p => .ok p.1

/-- `trySetKeymapsKey` of the source: parse, locate layer `layer` and key
`key`, splice `newValue` over the byte span
`[offset, offset + content.length)`, and re-validate by re-parsing. -/
def trySetKeymapsKey (keymapText : List Char) (layer key : Nat)
    (newValue : List Char) (keyCount : Option Nat) :
    Except ParseErr (List Char) :=
  match tryParseKeymapsText keymapText keyCount with
  | .error err => .error err
  | .ok keymapParsed =>
    match keymapParsed.get? layer with
    | none => .ok keymapText
    | some layerKeys =>
      match layerKeys.get? key with
      | none => .ok keymapText
      | some keyValue =>
        let head := keymapText.take keyValue.offset
        let tail := keymapText.drop (keyValue.offset + keyValue.content.length)
        let newKeymap := head ++ newValue ++ tail
        match tryParseKeymapsText newKeymap keyCount with
        | .error err => .error err
        | .ok _ => .ok newKeymap

/-- Decimal digit characters of a natural number, least significant last;
mirrors JavaScript number-to-string coercion inside `addLayerKeymaps`. -/
def natDigitsAux : Nat → Nat → List Char → List Char
  | 0, _, acc => acc
  | f + 1, n, acc =>
    let d := Char.ofNat (48 + n % 10)
    if n < 10 then d :: acc else natDigitsAux f (n / 10) (d :: acc)

/-- Decimal representation of a natural number. -/
def natDigits (n : Nat) : List Char := natDigitsAux (n + 1) n []

/-- `empties.join(",")` of the source. -/
def joinComma : List (List Char) → List Char
  | [] => []
  | [x] => x
  | x :: y :: rest => x ++ [','] ++ joinComma (y :: rest)

/-- `addLayerKeymaps` of the source: parse leniently (returning the input
unchanged on any parse failure), then insert a synthesized layer at the
final cursor position. -/
def addLayerKeymaps (keymapText : List Char) : List Char :=
  match tryParseKeymapsTextWithEnd keymapText none with
  | .error _ => keymapText
  | .ok (keymaps, pos) =>
    let n := keymaps.length
    let empties := (keymaps.headD []).map (fun _ => "KC_TRANSPARENT".data)
    keymapText.take pos ++
      ",\n [".data ++ natDigits n ++ "] = KEYMAP(".data ++
      joinComma empties ++ ")".data ++
      keymapText.drop pos

/-- A JavaScript value of type `T | string | null` as produced and consumed
by `evalKeyExpression`. -/
inductive JsVal (T : Type) where
  | absent
  | str (s : List Char)
  | val (t : T)
deriving DecidableEq

/-- JavaScript falsiness of a `JsVal`; truthiness of the opaque payload
type `T` is supplied by the caller. -/
def JsVal.isFalsy (falsyT : T → Bool) : JsVal T → Bool
  | .absent => true
  | .str s => s.isEmpty
  | .val t => falsyT t

mutual

/-- `evalKeyExpression` of the source on a syntax node: a word yields its
content, a call evaluates its parameters, looks its name up in the
executor, and normalizes a falsy result to `absent`; an unknown name
yields `absent`. -/
def evalKeyExpression {T : Type} (falsyT : T → Bool)
    (executor : List Char → Option (List (JsVal T) → JsVal T)) :
    AstNode → JsVal T
  | .word content _ _ => .str content
  | .func fname params _ _ _ =>
    let evaledParams := evalParams falsyT executor params
    match executor fname with
    | some f =>
      let r := f evaledParams
      if r.isFalsy falsyT then .absent else r
    | none => .absent

/-- The `forEach` loop of the source pushing the evaluation of each
parameter in order. -/
def evalParams {T : Type} (falsyT : T → Bool)
    (executor : List Char → Option (List (JsVal T) → JsVal T)) :
    List AstNode → List (JsVal T)
  | [] => []
  | p :: rest =>
    evalKeyExpression falsyT executor p :: evalParams falsyT executor rest

end

/-- The `expr` argument of `evalKeyExpression` as typed in the source
(`AstNode | string`, with an additional `null` check at runtime). -/
def evalKeyExpressionEntry {T : Type} (falsyT : T → Bool)
    (executor : List Char → Option (List (JsVal T) → JsVal T)) :
    Option (Sum (List Char) AstNode) → JsVal T
  | none => .absent
  | some (.inl s) => .str s
  | some (.inr node) => evalKeyExpression falsyT executor node

end Keymapc

namespace Keymapc

/-- C10: the top-level invocation scan is purely textual and does not respect
comments: in `"/* KEYMAP(KC_A) */ KEYMAP(KC_B)"` the occurrence of
`KEYMAP(` inside the block comment is parsed as a real invocation, so the
result has two Layers. -/
theorem scan_ignores_comments_outside_invocations :
    tryParseKeymapsText "/* KEYMAP(KC_A) */ KEYMAP(KC_B)".data none =
      .ok [[.word "KC_A".data 10 14], [.word "KC_B".data 26 30]] := by
  rfl

/-- C3: the parser does not always fail with a `ParseError`: on the input
`"KEYMAP(F("` the recursive parameter parse returns an empty list and the
source dereferences `params.slice(-1)[0]` (i.e. `undefined`), a `TypeError`
rather than a parse error, modelled by the `emptyParamsAccess` outcome. -/
theorem parse_truncated_func_crashes :
    tryParseKeymapsText "KEYMAP(F(".data none = .error .emptyParamsAccess := by
  rfl

/-- C4: a backslash-newline inside a pending token is not elided: the parser
resets the token start past the pair, discarding the characters before it,
so the first key of `"KEYMAP(KC\<newline>_A, KC_B)"` parses as the word
`"_A"`, not `"KC_A"`. -/
theorem line_continuation_discards_prefix :
    tryParseKeymapsText "KEYMAP(KC\\\n_A, KC_B)".data none =
      .ok [[.word "_A".data 11 13, .word "KC_B".data 15 19]] ∧
    "_A".data ≠ "KC_A".data := by
  exact ⟨rfl, by decide⟩

/-- C5: after a `//` line comment the parser advances the cursor one
character past the newline (an extra `pos++`), so the character immediately
following the newline is dropped from the next token span: the second key of
`"KEYMAP(KC_A, // c\<newline>KC_B)"` parses as `"C_B"`, not `"KC_B"`. -/
theorem line_comment_swallows_extra_char :
    tryParseKeymapsText "KEYMAP(KC_A, // c\nKC_B)".data none =
      .ok [[.word "KC_A".data 7 11, .word "C_B".data 19 22]] ∧
    "C_B".data ≠ "KC_B".data := by
  exact ⟨rfl, by decide⟩

/-- C1, counterexample: in `"KEYMAP(KC_A , KC_B)"` the first word node has
`offset = 7`, `end = 12` and `content = "KC_A"`, but the substring of the
source at `[7, 12)` is `"KC_A "` (the stored `end` includes the trailing
whitespace), so the node's content does not equal the substring at
`[offset, end)`. -/
theorem word_end_includes_trailing_space_cex :
    tryParseKeymapsText "KEYMAP(KC_A , KC_B)".data none =
      .ok [[.word "KC_A".data 7 12, .word "KC_B".data 14 18]] ∧
    jsSlice "KEYMAP(KC_A , KC_B)".data 7 12 ≠ "KC_A".data := by
  exact ⟨rfl, by decide⟩

/-- C2, counterexample: `setKey` with the non-token value `"X,Y"` returns a
result (the spliced text re-parses successfully), but parsing the result
gives Layer 0 whose key 0 is the word `"X"`, not `"X,Y"`, and whose key 1
is `"Y"` where the pre-edit parse had `"KC_B"`: the claimed round-trip
fails on the code. -/
theorem setKey_roundtrip_cex :
    trySetKeymapsKey "KEYMAP(KC_A, KC_B)".data 0 0 "X,Y".data none =
      .ok "KEYMAP(X,Y, KC_B)".data ∧
    tryParseKeymapsText "KEYMAP(X,Y, KC_B)".data none =
      .ok [[.word "X".data 7 8, .word "Y".data 9 10, .word "KC_B".data 12 16]] ∧
    "X".data ≠ "X,Y".data ∧
    tryParseKeymapsText "KEYMAP(KC_A, KC_B)".data none =
      .ok [[.word "KC_A".data 7 11, .word "KC_B".data 13 17]] ∧
    "Y".data ≠ "KC_B".data := by
  exact ⟨rfl, rfl, by decide, rfl, by decide⟩

end Keymapc

namespace Keymapc

/-- C8: when parsing fails for any reason, `addLayerKeymaps` returns the
input text unchanged (and, being a total Lean function, never raises). -/
theorem addLayer_returns_input_on_parse_failure (text : List Char) (e : ParseErr)
    (h : tryParseKeymapsTextWithEnd text none = .error e) :
    addLayerKeymaps text = text := by
  unfold addLayerKeymaps
  rw [h]

/-- C8, witness: on the unparsable input `"hello"` the operation is the
identity. -/
theorem addLayer_returns_input_on_parse_failure_witness :
    addLayerKeymaps "hello".data = "hello".data :=
  addLayer_returns_input_on_parse_failure "hello".data .keymapsNotFound rfl

/-- C2, amended: whenever `trySetKeymapsKey` returns a result and the target
node exists, the result is the original text with exactly the byte span
`[offset, offset + content.length)` of the target node replaced by the new
value (all other bytes untouched), and the result re-parses successfully
under the same expected key count.  (The original round-trip clause —
layer `L` key `K` re-parses to a Word equal to `V` with all other keys'
content unchanged — is refuted by `setKey_roundtrip_cex`.) -/
theorem setKey_splices_exact_span (text : List Char) (L K : Nat) (V : List Char)
    (kc : Option Nat) (ks : List (List AstNode)) (lk : List AstNode)
    (node : AstNode) (res : List Char)
    (hp : tryParseKeymapsText text kc = .ok ks)
    (hL : ks.get? L = some lk) (hK : lk.get? K = some node)
    (hres : trySetKeymapsKey text L K V kc = .ok res) :
    res = text.take node.offset ++ V ++
        text.drop (node.offset + node.content.length) ∧
    ∃ ks2, tryParseKeymapsText
        (text.take node.offset ++ V ++
          text.drop (node.offset + node.content.length)) kc = .ok ks2 := by
  unfold trySetKeymapsKey at hres
  rw [hp] at hres
  simp only [hL, hK] at hres
  cases hrp : tryParseKeymapsText
      (text.take node.offset ++ V ++
        text.drop (node.offset + node.content.length)) kc with
  | error err => rw [hrp] at hres; cases hres
  | ok ks2 =>
    rw [hrp] at hres
    cases hres
    exact ⟨rfl, ks2, rfl⟩

/-- C2, witness: setting key 1 of `"KEYMAP(KC_A, KC_B)"` to `"KC_X"`
splices exactly the span `[13, 17)` and the result re-parses. -/
theorem setKey_splices_exact_span_witness :
    "KEYMAP(KC_A, KC_X)".data =
      "KEYMAP(KC_A, KC_B)".data.take 13 ++ "KC_X".data ++
        "KEYMAP(KC_A, KC_B)".data.drop (13 + 4) ∧
    ∃ ks2, tryParseKeymapsText
        ("KEYMAP(KC_A, KC_B)".data.take 13 ++ "KC_X".data ++
          "KEYMAP(KC_A, KC_B)".data.drop (13 + 4)) none = .ok ks2 :=
  setKey_splices_exact_span "KEYMAP(KC_A, KC_B)".data 0 1 "KC_X".data none
    [[.word "KC_A".data 7 11, .word "KC_B".data 13 17]]
    [.word "KC_A".data 7 11, .word "KC_B".data 13 17]
    (.word "KC_B".data 13 17) "KEYMAP(KC_A, KC_X)".data
    rfl rfl rfl rfl

end Keymapc


namespace Keymapc
/-- Structure of a successful parse: the scan succeeded, at least one
invocation was found, all layers have the length of the first one, and a
supplied expected key count matches the first layer's length. -/
theorem withEnd_ok_structure (expr : List Char) (kc : Option Nat)
    (ks : List (List AstNode)) (pos : Nat)
    (h : tryParseKeymapsTextWithEnd expr kc = .ok (ks, pos)) :
    scanKeymaps expr (expr.length + 1) 0 [] = .ok (ks, pos) ∧
    1 ≤ ks.length ∧
    (ks.any (fun t => t.length ≠ (ks.headD []).length)) = false ∧
    ∀ n, kc = some n → (ks.headD []).length = n := by
  unfold tryParseKeymapsTextWithEnd at h
  cases hs : scanKeymaps expr (expr.length + 1) 0 [] with
  | error e => rw [hs] at h; cases h
  | ok p =>
    obtain ⟨ks0, pos0⟩ := p
    cases kc with
    | none =>
      simp only [hs] at h
      split at h
      · rename_i hge
        split at h
        · cases h
        · rename_i hany
          have hany' : (ks0.any (fun t => t.length ≠ (ks0.headD []).length)) = false := by
            simpa using hany
          injection h with h'
          injection h' with h1 h2
          subst h1; subst h2
          exact ⟨rfl, hge, hany', fun n hn => by cases hn⟩
      · cases h
    | some n =>
      simp only [hs] at h
      split at h
      · rename_i hge
        split at h
        · cases h
        · rename_i hany
          have hany' : (ks0.any (fun t => t.length ≠ (ks0.headD []).length)) = false := by
            simpa using hany
          by_cases hkc0 : (ks0.headD []).length = n
          · rw [if_neg (not_not_intro hkc0)] at h
            injection h with h'
            injection h' with h1 h2
            subst h1; subst h2
            refine ⟨rfl, hge, hany', fun m hm => ?_⟩
            injection hm with hnm
            omega
          · rw [if_pos hkc0] at h
            cases h
      · cases h

/-- A successful `tryParseKeymapsText` comes from a successful
`tryParseKeymapsTextWithEnd`. -/
theorem tryParse_ok_elim (expr : List Char) (kc : Option Nat)
    (ks : List (List AstNode)) (h : tryParseKeymapsText expr kc = .ok ks) :
    ∃ pos, tryParseKeymapsTextWithEnd expr kc = .ok (ks, pos) := by
  unfold tryParseKeymapsText at h
  cases hw : tryParseKeymapsTextWithEnd expr kc with
  | error e => rw [hw] at h; cases h
  | ok p =>
    obtain ⟨ks0, pos0⟩ := p
    simp only [hw] at h
    injection h with h'
    subst h'
    exact ⟨pos0, rfl⟩

/-- C6: the parse returns a result only when all Layers have equal length
(and matching a supplied expected key count); when the scanned invocations
disagree on key count the parse fails with the inconsistent-layer-size
error, and when the count check fails the parse fails with the
unexpected-key-count error. -/
theorem parse_layer_size_checks (expr : List Char) (kc : Option Nat) :
    (∀ ks, tryParseKeymapsText expr kc = .ok ks →
      (∀ l ∈ ks, l.length = (ks.headD []).length) ∧
      (∀ n, kc = some n → (ks.headD []).length = n)) ∧
    (∀ ks pos, scanKeymaps expr (expr.length + 1) 0 [] = .ok (ks, pos) →
      ks.length ≥ 1 →
      (ks.any (fun t => t.length ≠ (ks.headD []).length)) = true →
      tryParseKeymapsText expr kc = .error .inconsistentLayerSize) ∧
    (∀ ks pos n, scanKeymaps expr (expr.length + 1) 0 [] = .ok (ks, pos) →
      ks.length ≥ 1 →
      (ks.any (fun t => t.length ≠ (ks.headD []).length)) = false →
      kc = some n → (ks.headD []).length ≠ n →
      tryParseKeymapsText expr kc =
        .error (.unexpectedKeyCount (ks.headD []).length n)) := by
  refine ⟨?_, ?_, ?_⟩
  · intro ks h
    obtain ⟨pos, hw⟩ := tryParse_ok_elim expr kc ks h
    obtain ⟨-, -, hany, hkc⟩ := withEnd_ok_structure expr kc ks pos hw
    refine ⟨?_, hkc⟩
    intro l hl
    by_contra hne
    have : (ks.any (fun t => t.length ≠ (ks.headD []).length)) = true :=
      List.any_eq_true.mpr ⟨l, hl, by simpa using hne⟩
    rw [this] at hany
    cases hany
  · intro ks pos hs hge hany
    have hw : tryParseKeymapsTextWithEnd expr kc = .error .inconsistentLayerSize := by
      unfold tryParseKeymapsTextWithEnd
      simp only [hs]
      rw [if_pos hge, if_pos hany]
    unfold tryParseKeymapsText
    rw [hw]
  · intro ks pos n hs hge hany hkc hne
    subst hkc
    have hany' : ¬((ks.any (fun t => t.length ≠ (ks.headD []).length)) = true) := by
      intro hcontra
      rw [hcontra] at hany
      cases hany
    have hw : tryParseKeymapsTextWithEnd expr (some n) =
        .error (.unexpectedKeyCount (ks.headD []).length n) := by
      unfold tryParseKeymapsTextWithEnd
      simp only [hs]
      rw [if_pos hge, if_neg hany', if_pos hne]
    unfold tryParseKeymapsText
    rw [hw]

/-- C6, witness: on `"KEYMAP(A,B) KEYMAP(A,B,C)"` the parse fails with the
inconsistent-layer-size error; on `"KEYMAP(A,B)"` with expected key count 2
it succeeds and all layers have the first layer's length. -/
theorem parse_layer_size_checks_witness :
    tryParseKeymapsText "KEYMAP(A,B) KEYMAP(A,B,C)".data none =
      .error .inconsistentLayerSize ∧
    (∀ l ∈ [[AstNode.word "A".data 7 8, AstNode.word "B".data 9 10]],
      l.length =
        ([[AstNode.word "A".data 7 8, AstNode.word "B".data 9 10]].headD []).length) :=
  ⟨(parse_layer_size_checks "KEYMAP(A,B) KEYMAP(A,B,C)".data none).2.1
      [[.word "A".data 7 8, .word "B".data 9 10],
       [.word "A".data 19 20, .word "B".data 21 22, .word "C".data 23 24]]
      25 (by rfl) (by decide) (by rfl),
   ((parse_layer_size_checks "KEYMAP(A,B)".data (some 2)).1
      [[.word "A".data 7 8, .word "B".data 9 10]] (by rfl)).1⟩

end Keymapc

namespace Keymapc

/-- The parameter loop computes the pointwise evaluation of the list. -/
theorem evalParams_eq_map {T : Type} (falsyT : T → Bool)
    (executor : List Char → Option (List (JsVal T) → JsVal T))
    (params : List AstNode) :
    evalParams falsyT executor params =
      params.map (evalKeyExpression falsyT executor) := by
  induction params with
  | nil => rw [evalParams, List.map_nil]
  | cons p rest ih => rw [evalParams, List.map_cons, ih]

/-- C9: the evaluator is total (a total Lean function, so it never fails):
a Word evaluates to its literal content; a Call whose name is absent from
the symbol table evaluates to the absent value; a symbol-table function
returning a falsy result is normalized to the absent value; otherwise the
function's result is the value. -/
theorem eval_word_and_call_behaviour {T : Type} (falsyT : T → Bool)
    (executor : List Char → Option (List (JsVal T) → JsVal T)) :
    (∀ content offset endPos,
      evalKeyExpression falsyT executor (.word content offset endPos) = .str content) ∧
    (∀ fname params offset endPos content, executor fname = none →
      evalKeyExpression falsyT executor (.func fname params offset endPos content) =
        .absent) ∧
    (∀ fname params offset endPos content f, executor fname = some f →
      (f (params.map (evalKeyExpression falsyT executor))).isFalsy falsyT = true →
      evalKeyExpression falsyT executor (.func fname params offset endPos content) =
        .absent) ∧
    (∀ fname params offset endPos content f, executor fname = some f →
      (f (params.map (evalKeyExpression falsyT executor))).isFalsy falsyT = false →
      evalKeyExpression falsyT executor (.func fname params offset endPos content) =
        f (params.map (evalKeyExpression falsyT executor))) := by
  refine ⟨?_, ?_, ?_, ?_⟩
  · intro content offset endPos
    rw [evalKeyExpression]
  · intro fname params offset endPos content hnone
    rw [evalKeyExpression, hnone]
  · intro fname params offset endPos content f hsome hfalsy
    rw [evalKeyExpression, hsome]
    simp only [evalParams_eq_map, hfalsy, if_true]
  · intro fname params offset endPos content f hsome hfalsy
    rw [evalKeyExpression, hsome]
    simp only [evalParams_eq_map, hfalsy, Bool.false_eq_true, if_false]

/-- C9, witness: with a concrete one-entry symbol table over `T = Unit`,
a word evaluates to its content, a call with an unknown name evaluates to
the absent value, a falsy (empty-string) result is normalized to absent,
and a truthy result is returned as is. -/
theorem eval_word_and_call_behaviour_witness :
    evalKeyExpression (T := Unit) (fun _ => false)
      (fun s => if s = "LT".data then some (fun _ => .str "x".data) else none)
      (.word "KC_A".data 7 11) = .str "KC_A".data ∧
    evalKeyExpression (T := Unit) (fun _ => false)
      (fun s => if s = "LT".data then some (fun _ => .str "x".data) else none)
      (.func "MO".data [.word "1".data 3 4] 0 5 "MO(1)".data) = .absent ∧
    evalKeyExpression (T := Unit) (fun _ => false)
      (fun s => if s = "LT".data then some (fun _ => .str "x".data) else none)
      (.func "LT".data [.word "1".data 3 4] 0 5 "LT(1)".data) = .str "x".data :=
  ⟨(eval_word_and_call_behaviour (T := Unit) (fun _ => false)
      (fun s => if s = "LT".data then some (fun _ => .str "x".data) else none)).1
      "KC_A".data 7 11,
   (eval_word_and_call_behaviour (T := Unit) (fun _ => false)
      (fun s => if s = "LT".data then some (fun _ => .str "x".data) else none)).2.1
      "MO".data [.word "1".data 3 4] 0 5 "MO(1)".data (by rfl),
   (eval_word_and_call_behaviour (T := Unit) (fun _ => false)
      (fun s => if s = "LT".data then some (fun _ => .str "x".data) else none)).2.2.2
      "LT".data [.word "1".data 3 4] 0 5 "LT(1)".data (fun _ => .str "x".data)
      (by rfl) (by rfl)⟩

end Keymapc

namespace Keymapc

/-- Characters on which one iteration of the `main` loop merely advances
the cursor (no dispatch case applies, or only the space case, which has
the same effect). -/
def neutralChar (c : Char) : Prop :=
  c ≠ '\\' ∧ c ≠ '/' ∧ c ≠ ',' ∧ c ≠ '(' ∧ c ≠ ')'

/-- Past the end of the text the loop returns its accumulator. -/
theorem mainLoop_at_end (expr : List Char) (fuel start pos : Nat)
    (arr : List AstNode) (lt pc : Int) (h : expr.length ≤ pos) :
    mainLoop expr fuel start pos arr lt pc = .ok (arr, pos, pc) := by
  rw [mainLoop.eq_def]
  rw [List.get?_eq_none.mpr h]

/-- Within the text, one unit of fuel runs one loop iteration. -/
theorem mainLoop_step (expr : List Char) (c : Char) (f start pos : Nat)
    (arr : List AstNode) (lt pc : Int) (hget : expr.get? pos = some c) :
    mainLoop expr (f + 1) start pos arr lt pc =
      mainBody expr (mainLoop expr f) start pos arr lt pc c := by
  rw [mainLoop.eq_def]
  rw [hget]

/-- A neutral character only advances the cursor. -/
theorem mainBody_neutral (expr : List Char)
    (recur : Nat → Nat → List AstNode → Int → Int →
      Except ParseErr (List AstNode × Nat × Int))
    (start pos : Nat) (arr : List AstNode) (lt pc : Int) (c : Char)
    (hc : neutralChar c) :
    mainBody expr recur start pos arr lt pc c = recur start (pos + 1) arr lt pc := by
  obtain ⟨h1, h2, h3, h4, h5⟩ := hc
  simp only [mainBody]
  rw [if_neg (by simp [h1]), if_neg (by simp [h2]), if_neg (by simp [h2]),
    if_neg h3, if_neg h4, if_neg h5]

/-- A comma flushes the pending word, checks a token exists, and restarts
the span after the comma. -/
theorem mainBody_comma (expr : List Char)
    (recur : Nat → Nat → List AstNode → Int → Int →
      Except ParseErr (List AstNode × Nat × Int))
    (start pos : Nat) (arr : List AstNode) (lt pc : Int) :
    mainBody expr recur start pos arr lt pc ',' =
      (match addWord expr start arr pos with
       | .error err => .error err
       | .ok (arr2, _) =>
         match ensureTokenExists (pos + 1) arr2 lt with
         | .error err => .error err
         | .ok lt2 => recur (pos + 1) (pos + 1) arr2 lt2 pc) := by
  simp only [mainBody]
  rw [if_neg (by simp), if_neg (by simp), if_neg (by simp), if_pos trivial]

/-- A closing parenthesis flushes the pending word, checks a token exists,
decrements the depth counter and returns. -/
theorem mainBody_paren_close (expr : List Char)
    (recur : Nat → Nat → List AstNode → Int → Int →
      Except ParseErr (List AstNode × Nat × Int))
    (start pos : Nat) (arr : List AstNode) (lt pc : Int) :
    mainBody expr recur start pos arr lt pc ')' =
      (match addWord expr start arr pos with
       | .error err => .error err
       | .ok (arr2, _) =>
         match ensureTokenExists (pos + 1) arr2 lt with
         | .error err => .error err
         | .ok _ => .ok (arr2, pos + 1, pc - 1)) := by
  simp only [mainBody]
  rw [if_neg (by simp), if_neg (by simp), if_neg (by simp), if_neg (by simp),
    if_neg (by simp), if_pos trivial]

/-- Running the loop across a block of neutral characters advances the
cursor over the block and changes nothing else. -/
theorem mainLoop_run_neutral (expr : List Char) (w rest : List Char)
    (f start pos : Nat) (arr : List AstNode) (lt pc : Int)
    (hdrop : expr.drop pos = w ++ rest) (hw : ∀ c ∈ w, neutralChar c) :
    mainLoop expr (f + w.length) start pos arr lt pc =
      mainLoop expr f start (pos + w.length) arr lt pc := by
  induction w generalizing pos with
  | nil => simp
  | cons c cs ih =>
    have hget : expr.get? pos = some c := by
      have h0 : (expr.drop pos).get? 0 = some c := by rw [hdrop]; rfl
      rw [List.get?_drop] at h0
      simpa using h0
    have hdrop' : expr.drop (pos + 1) = cs ++ rest := by
      have : expr.drop (pos + 1) = (expr.drop pos).drop 1 := by
        rw [List.drop_drop]
      rw [this, hdrop]
      rfl
    have hstep : f + (c :: cs).length = (f + cs.length) + 1 := by
      rw [List.length_cons, Nat.add_assoc]
    rw [hstep, mainLoop_step expr c (f + cs.length) start pos arr lt pc hget,
      mainBody_neutral expr _ start pos arr lt pc c (hw c (by simp))]
    rw [ih (pos + 1) hdrop' (fun d hd => hw d (by simp [hd]))]
    congr 1
    rw [List.length_cons]
    omega

end Keymapc

namespace Keymapc

/-- JavaScript whitespace is neutral for the dispatch switch. -/
theorem isJsSpace_neutral (c : Char) (h : isJsSpace c = true) : neutralChar c := by
  refine ⟨?_, ?_, ?_, ?_, ?_⟩ <;>
    · intro he
      subst he
      exact absurd h (by decide)

/-- A plain word character: neutral and not whitespace. -/
def wordChar (c : Char) : Prop := neutralChar c ∧ isJsSpace c = false

instance (c : Char) : Decidable (neutralChar c) := by
  unfold neutralChar
  infer_instance

instance (c : Char) : Decidable (wordChar c) := by
  unfold wordChar
  infer_instance

/-- One comma-separated argument of the plain-word input family: a word
with optional whitespace padding on either side. -/
structure Seg where
  pad1 : List Char
  w : List Char
  pad2 : List Char

/-- Validity of a segment: whitespace padding, non-empty word, and only
plain word characters in the word. -/
def Seg.valid (s : Seg) : Prop :=
  (∀ c ∈ s.pad1, isJsSpace c = true) ∧ (∀ c ∈ s.pad2, isJsSpace c = true) ∧
  s.w ≠ [] ∧ ∀ c ∈ s.w, wordChar c

/-- The text of one segment. -/
def Seg.text (s : Seg) : List Char := s.pad1 ++ s.w ++ s.pad2

/-- The comma-joined text of a non-empty argument list. -/
def argsStr : List Seg → List Char
  | [] => []
  | [s] => s.text
  | s :: s2 :: rest => s.text ++ [','] ++ argsStr (s2 :: rest)

/-- The word nodes the parser produces for the argument list, given the
absolute position `base` at which the argument list starts. -/
def segNodes (base : Nat) : List Seg → List AstNode
  | [] => []
  | s :: rest =>
    .word s.w (base + s.pad1.length) (base + s.text.length) ::
      segNodes (base + s.text.length + 1) rest

/-- Every character of a valid segment's text is neutral. -/
theorem Seg.text_neutral (s : Seg) (hv : s.valid) : ∀ c ∈ s.text, neutralChar c := by
  obtain ⟨hp1, hp2, _, hwc⟩ := hv
  intro c hc
  rw [Seg.text] at hc
  simp only [List.append_assoc, List.mem_append] at hc
  rcases hc with h | h | h
  · exact isJsSpace_neutral c (hp1 c h)
  · exact (hwc c h).1
  · exact isJsSpace_neutral c (hp2 c h)

/-- Taking while a predicate holds over padding stops at the first
failing character. -/
theorem takeWhile_pad (p : Char → Bool) (pad : List Char) (c0 : Char)
    (rest : List Char) (hpad : ∀ c ∈ pad, p c = true) (hc : p c0 = false) :
    (pad ++ c0 :: rest).takeWhile p = pad := by
  induction pad with
  | nil =>
    rw [List.nil_append, List.takeWhile_cons, hc]
    rfl
  | cons d ds ih =>
    rw [List.cons_append, List.takeWhile_cons, hpad d (by simp)]
    rw [ih (fun c hcm => hpad c (by simp [hcm]))]
    rfl

/-- Trimming a padded word yields the padding length and the word. -/
theorem tokenWithoutSpaces_pad (p1 w p2 : List Char)
    (hp1 : ∀ c ∈ p1, isJsSpace c = true) (hp2 : ∀ c ∈ p2, isJsSpace c = true)
    (hne : w ≠ []) (hw : ∀ c ∈ w, isJsSpace c = false) :
    tokenWithoutSpaces (p1 ++ w ++ p2) = (p1.length, w) := by
  obtain ⟨c0, w', rfl⟩ := List.exists_cons_of_ne_nil hne
  have hassoc : p1 ++ (c0 :: w') ++ p2 = p1 ++ c0 :: (w' ++ p2) := by
    simp
  have hlead : ((p1 ++ (c0 :: w') ++ p2).takeWhile isJsSpace) = p1 := by
    rw [hassoc]
    exact takeWhile_pad isJsSpace p1 c0 (w' ++ p2) hp1 (hw c0 (by simp))
  obtain ⟨ws, cl, hwl⟩ : ∃ ws cl, c0 :: w' = ws ++ [cl] := by
    rcases List.eq_nil_or_concat (c0 :: w') with h | ⟨ws, cl, h⟩
    · cases h
    · exact ⟨ws, cl, by rw [h, List.concat_eq_append]⟩
  have hcl : isJsSpace cl = false := hw cl (by rw [hwl]; simp)
  have htrail : ((p1 ++ (c0 :: w') ++ p2).reverse.takeWhile isJsSpace) = p2.reverse := by
    have hrev : (p1 ++ (c0 :: w') ++ p2).reverse =
        p2.reverse ++ cl :: (ws.reverse ++ p1.reverse) := by
      rw [hwl]
      simp
    rw [hrev]
    exact takeWhile_pad isJsSpace p2.reverse cl (ws.reverse ++ p1.reverse)
      (fun c hc => hp2 c (by simpa using hc)) hcl
  rw [tokenWithoutSpaces]
  simp only [hlead, htrail, List.length_reverse]
  have he : (p1 ++ (c0 :: w') ++ p2).length - p2.length = (p1 ++ (c0 :: w')).length := by
    simp only [List.length_append]
    omega
  rw [he, jsSlice]
  rw [show p1 ++ (c0 :: w') ++ p2 = (p1 ++ (c0 :: w')) ++ p2 from rfl]
  rw [List.take_left, List.drop_left]

/-- Slicing out the middle block of a three-part concatenation. -/
theorem jsSlice_middle (A X rest : List Char) :
    jsSlice (A ++ X ++ rest) A.length (A.length + X.length) = X := by
  rw [jsSlice,
    show A.length + X.length = (A ++ X).length from (List.length_append _ _).symm,
    show A ++ X ++ rest = (A ++ X) ++ rest from rfl,
    List.take_left, List.drop_left]

/-- Flushing a valid segment pushes exactly its word node. -/
theorem addWord_push (expr A rest : List Char) (s : Seg) (arr : List AstNode)
    (hv : s.valid) (hexpr : expr = A ++ s.text ++ rest) :
    addWord expr A.length arr (A.length + s.text.length) =
      .ok (arr ++ [.word s.w (A.length + s.pad1.length) (A.length + s.text.length)],
        true) := by
  obtain ⟨hp1, hp2, hne, hwc⟩ := hv
  have hwlen : s.w.length ≠ 0 := by
    simpa [List.length_eq_zero] using hne
  have htlen : s.text.length = s.pad1.length + s.w.length + s.pad2.length := by
    simp only [Seg.text, List.length_append]
  rw [addWord]
  rw [if_neg (by omega)]
  have hslice : jsSlice expr A.length (A.length + s.text.length) = s.text := by
    rw [hexpr]; exact jsSlice_middle A s.text rest
  rw [hslice]
  have htok : tokenWithoutSpaces s.text = (s.pad1.length, s.w) := by
    rw [Seg.text]
    exact tokenWithoutSpaces_pad s.pad1 s.w s.pad2 hp1 hp2 hne
      (fun c hc => (hwc c hc).2)
  rw [htok]
  rw [if_neg hne]
  have hany : s.w.any isJsSpace = false := by
    rw [List.any_eq_false]
    intro c hc
    simp [(hwc c hc).2]
  rw [if_neg (by simp [hany])]

/-- Appending one node to a list with `lastToken` at most its length
passes the token-existence check. -/
theorem ensure_push (pos : Nat) (arr : List AstNode) (x : AstNode) (lt : Int)
    (hlt : lt ≤ (arr.length : Int)) :
    ensureTokenExists pos (arr ++ [x]) lt = .ok (((arr ++ [x]).length : Nat) : Int) := by
  have hlen : (arr ++ [x]).length = arr.length + 1 := by simp
  rw [ensureTokenExists, if_neg ?hc]
  case hc =>
    rw [hlen]
    push_cast
    simp only [or_false]
    omega

end Keymapc

namespace Keymapc

/-- Comma iteration when the flush and the token check succeed. -/
theorem mainBody_comma_ok (expr : List Char)
    (recur : Nat → Nat → List AstNode → Int → Int →
      Except ParseErr (List AstNode × Nat × Int))
    (start pos : Nat) (arr arr2 : List AstNode) (b : Bool) (lt lt2 pc : Int)
    (haw : addWord expr start arr pos = .ok (arr2, b))
    (hen : ensureTokenExists (pos + 1) arr2 lt = .ok lt2) :
    mainBody expr recur start pos arr lt pc ',' =
      recur (pos + 1) (pos + 1) arr2 lt2 pc := by
  rw [mainBody_comma, haw]
  show (match ensureTokenExists (pos + 1) arr2 lt with
        | Except.error err => Except.error err
        | Except.ok lt3 => recur (pos + 1) (pos + 1) arr2 lt3 pc) =
      recur (pos + 1) (pos + 1) arr2 lt2 pc
  rw [hen]

/-- Closing-parenthesis iteration when the flush and the token check
succeed. -/
theorem mainBody_paren_close_ok (expr : List Char)
    (recur : Nat → Nat → List AstNode → Int → Int →
      Except ParseErr (List AstNode × Nat × Int))
    (start pos : Nat) (arr arr2 : List AstNode) (b : Bool) (lt lt2 pc : Int)
    (haw : addWord expr start arr pos = .ok (arr2, b))
    (hen : ensureTokenExists (pos + 1) arr2 lt = .ok lt2) :
    mainBody expr recur start pos arr lt pc ')' =
      .ok (arr2, pos + 1, pc - 1) := by
  rw [mainBody_paren_close, haw]
  show (match ensureTokenExists (pos + 1) arr2 lt with
        | Except.error err => Except.error err
        | Except.ok _ => Except.ok (arr2, pos + 1, pc - 1)) =
      Except.ok (arr2, pos + 1, pc - 1)
  rw [hen]

end Keymapc

namespace Keymapc

/-- Dropping a known prefix. -/
theorem drop_at (expr A B : List Char) (h : expr = A ++ B) :
    expr.drop A.length = B := by
  rw [h]
  exact List.drop_left A B

/-- Reading the first character after a known prefix. -/
theorem get_at (expr A B : List Char) (c : Char) (h : expr = A ++ c :: B) :
    expr.get? A.length = some c := by
  rw [h, List.get?_append_right (Nat.le_refl _)]
  simp

/-- Running the `main` loop over a comma-separated list of valid padded
words followed by a closing parenthesis: every word is flushed as a word
node and the loop returns at the parenthesis with the depth counter
decremented. -/
theorem mainLoop_args (segs : List Seg) (expr rest : List Char) (f : Nat) :
    ∀ (A : List Char) (arr : List AstNode) (lt : Int) (pc : Int),
    segs ≠ [] → (∀ s ∈ segs, s.valid) →
    expr = A ++ argsStr segs ++ [')'] ++ rest →
    lt ≤ (arr.length : Int) →
    mainLoop expr (f + ((argsStr segs).length + 1)) A.length A.length arr lt pc =
      .ok (arr ++ segNodes A.length segs,
        A.length + (argsStr segs).length + 1, pc - 1) := by
  induction segs with
  | nil => intro A arr lt pc hne; exact absurd rfl hne
  | cons s tail ih =>
    intro A arr lt pc hne hv hexpr hlt
    have hvs : s.valid := hv s (by simp)
    cases tail with
    | nil =>
      have hargs : argsStr [s] = s.text := rfl
      rw [hargs] at hexpr ⊢
      have hdrop : expr.drop A.length = s.text ++ ([')'] ++ rest) := by
        apply drop_at expr A _
        rw [hexpr]
        simp
      rw [show f + (s.text.length + 1) = (f + 1) + s.text.length from by omega]
      rw [mainLoop_run_neutral expr s.text ([')'] ++ rest) (f + 1) A.length A.length
        arr lt pc hdrop (Seg.text_neutral s hvs)]
      have hget : expr.get? (A.length + s.text.length) = some ')' := by
        have := get_at expr (A ++ s.text) rest ')' (by rw [hexpr]; simp)
        simpa [List.length_append] using this
      rw [mainLoop_step expr ')' f A.length (A.length + s.text.length) arr lt pc hget]
      rw [mainBody_paren_close_ok expr _ A.length (A.length + s.text.length) arr
        (arr ++ [.word s.w (A.length + s.pad1.length) (A.length + s.text.length)])
        true lt (((arr ++ [AstNode.word s.w (A.length + s.pad1.length)
          (A.length + s.text.length)]).length : Nat) : Int) pc
        (addWord_push expr A ([')'] ++ rest) s arr hvs (by rw [hexpr]; simp))
        (ensure_push (A.length + s.text.length + 1) arr _ lt hlt)]
      rfl
    | cons s2 tail2 =>
      have hargs : argsStr (s :: s2 :: tail2) =
          s.text ++ [','] ++ argsStr (s2 :: tail2) := rfl
      rw [hargs] at hexpr ⊢
      have hdrop : expr.drop A.length =
          s.text ++ ([','] ++ (argsStr (s2 :: tail2) ++ [')'] ++ rest)) := by
        apply drop_at expr A _
        rw [hexpr]
        simp
      rw [show f + ((s.text ++ [','] ++ argsStr (s2 :: tail2)).length + 1) =
          ((f + ((argsStr (s2 :: tail2)).length + 1)) + 1) + s.text.length from by
        simp [List.length_append]
        omega]
      rw [mainLoop_run_neutral expr s.text
        ([','] ++ (argsStr (s2 :: tail2) ++ [')'] ++ rest))
        ((f + ((argsStr (s2 :: tail2)).length + 1)) + 1) A.length A.length
        arr lt pc hdrop (Seg.text_neutral s hvs)]
      have hget : expr.get? (A.length + s.text.length) = some ',' := by
        have := get_at expr (A ++ s.text) (argsStr (s2 :: tail2) ++ [')'] ++ rest) ','
          (by rw [hexpr]; simp)
        simpa [List.length_append] using this
      rw [mainLoop_step expr ',' (f + ((argsStr (s2 :: tail2)).length + 1))
        A.length (A.length + s.text.length) arr lt pc hget]
      rw [mainBody_comma_ok expr _ A.length (A.length + s.text.length) arr
        (arr ++ [.word s.w (A.length + s.pad1.length) (A.length + s.text.length)])
        true lt (((arr ++ [AstNode.word s.w (A.length + s.pad1.length)
          (A.length + s.text.length)]).length : Nat) : Int) pc
        (addWord_push expr A ([','] ++ (argsStr (s2 :: tail2) ++ [')'] ++ rest))
          s arr hvs (by rw [hexpr]; simp))
        (ensure_push (A.length + s.text.length + 1) arr _ lt hlt)]
      have hApre : (A ++ s.text ++ [',']).length = A.length + s.text.length + 1 := by
        simp only [List.length_append, List.length_singleton]
      have hihres := ih (A ++ s.text ++ [','])
        (arr ++ [.word s.w (A.length + s.pad1.length) (A.length + s.text.length)])
        (((arr ++ [AstNode.word s.w (A.length + s.pad1.length)
          (A.length + s.text.length)]).length : Nat) : Int) pc
        (by simp) (fun t ht => hv t (by simp [ht]))
        (by rw [hexpr]; simp)
        (le_refl _)
      rw [hApre] at hihres
      rw [hihres]
      have hnodes : segNodes A.length (s :: s2 :: tail2) =
          .word s.w (A.length + s.pad1.length) (A.length + s.text.length) ::
            segNodes (A.length + s.text.length + 1) (s2 :: tail2) := rfl
      rw [hnodes]
      simp only [Except.ok.injEq, Prod.mk.injEq, List.append_assoc,
        List.singleton_append, List.length_append, List.length_cons]
      refine ⟨trivial, by omega, trivial⟩

end Keymapc

namespace Keymapc

/-- When the marker does not occur at or after the cursor the scan stops. -/
theorem scan_none (expr : List Char) (fuel pos : Nat) (acc : List (List AstNode))
    (h : indexOfFromAux keymapMarker (expr.drop pos) = none) :
    scanKeymaps expr fuel pos acc = .ok (acc, pos) := by
  rw [scanKeymaps.eq_def, h]

/-- When the marker occurs and the invocation parses with balanced
parentheses, the scan accumulates the layer and continues. -/
theorem scan_step_ok (expr : List Char) (f pos j : Nat)
    (acc : List (List AstNode)) (keymap : List AstNode) (pos2 : Nat)
    (hidx : indexOfFromAux keymapMarker (expr.drop pos) = some j)
    (hmain : mainLoop expr (expr.length + 1) (pos + j + 7) (pos + j + 7) [] (-1) 1 =
      .ok (keymap, pos2, 0)) :
    scanKeymaps expr (f + 1) pos acc = scanKeymaps expr f pos2 (acc ++ [keymap]) := by
  rw [scanKeymaps.eq_def, hidx]
  show (match mainLoop expr (expr.length + 1) (pos + j + 7) (pos + j + 7) [] (-1) 1 with
        | Except.error err => Except.error err
        | Except.ok (keymap2, pos3, pcount2) =>
          if pcount2 ≠ 0 then Except.error ParseErr.unbalancedParens
          else scanKeymaps expr f pos3 (acc ++ [keymap2])) =
      scanKeymaps expr f pos2 (acc ++ [keymap])
  rw [hmain]
  show (if (0 : Int) ≠ 0 then Except.error ParseErr.unbalancedParens
        else scanKeymaps expr f pos2 (acc ++ [keymap])) = _
  rw [if_neg (by simp)]

/-- A pattern occurring as a prefix is found at index zero. -/
theorem indexOfFromAux_prefix (pat l rest : List Char) (hne : pat ≠ [])
    (h : l = pat ++ rest) :
    indexOfFromAux pat l = some 0 := by
  cases hl : l with
  | nil =>
    exfalso
    apply hne
    have h2 : pat ++ rest = [] := by rw [← h, hl]
    exact (List.append_eq_nil.mp h2).1
  | cons x xs =>
    rw [indexOfFromAux, if_pos]
    rw [← hl, h]
    exact List.isPrefixOf_iff_prefix.mpr (List.prefix_append pat rest)

/-- The length of the node list equals the number of segments. -/
theorem segNodes_length (base : Nat) (segs : List Seg) :
    (segNodes base segs).length = segs.length := by
  induction segs generalizing base with
  | nil => rfl
  | cons s tail ih => simp [segNodes, ih]

end Keymapc

namespace Keymapc

/-- Every node produced for the argument list carries as content exactly
the substring of the source at `[offset, offset + content.length)`. -/
theorem segNodes_content (segs : List Seg) (expr tail : List Char) :
    ∀ A : List Char, (∀ s ∈ segs, s.valid) →
    expr = A ++ argsStr segs ++ tail →
    ∀ node ∈ segNodes A.length segs,
      node.content = jsSlice expr node.offset (node.offset + node.content.length) := by
  induction segs with
  | nil =>
    intro A _ _ node hn
    cases hn
  | cons s tail2 ih =>
    intro A hv hexpr node hn
    have hvs : s.valid := hv s (by simp)
    rw [segNodes] at hn
    rcases List.mem_cons.mp hn with hn0 | hmem
    · subst hn0
      have hdecomp : ∃ Z : List Char, expr = (A ++ s.pad1) ++ s.w ++ Z := by
        cases tail2 with
        | nil =>
          refine ⟨s.pad2 ++ tail, ?_⟩
          rw [hexpr]
          show A ++ argsStr [s] ++ tail = _
          rw [show argsStr [s] = s.text from rfl, Seg.text]
          simp
        | cons s2 tail3 =>
          refine ⟨s.pad2 ++ ([','] ++ argsStr (s2 :: tail3)) ++ tail, ?_⟩
          rw [hexpr]
          show A ++ argsStr (s :: s2 :: tail3) ++ tail = _
          rw [show argsStr (s :: s2 :: tail3) =
            s.text ++ [','] ++ argsStr (s2 :: tail3) from rfl, Seg.text]
          simp
      obtain ⟨Z, hZ⟩ := hdecomp
      show s.w = jsSlice expr (A.length + s.pad1.length)
        (A.length + s.pad1.length + s.w.length)
      have := jsSlice_middle (A ++ s.pad1) s.w Z
      rw [← hZ] at this
      rw [List.length_append] at this
      exact this.symm
    · cases tail2 with
      | nil => cases hmem
      | cons s2 tail3 =>
        have hApre : (A ++ s.text ++ [',']).length = A.length + s.text.length + 1 := by
          simp only [List.length_append, List.length_singleton]
        have hexpr2 : expr = (A ++ s.text ++ [',']) ++ argsStr (s2 :: tail3) ++ tail := by
          rw [hexpr]
          show A ++ argsStr (s :: s2 :: tail3) ++ tail = _
          rw [show argsStr (s :: s2 :: tail3) =
            s.text ++ [','] ++ argsStr (s2 :: tail3) from rfl]
          simp
        have := ih (A ++ s.text ++ [',']) (fun t ht => hv t (by simp [ht])) hexpr2 node
        rw [hApre] at this
        exact this hmem

end Keymapc

namespace Keymapc

/-- C1, amended: for every single-invocation input built from `k`
comma-separated plain-word arguments (words of non-special, non-whitespace
characters, with optional whitespace padding), the parse returns exactly
one Layer of `k` word nodes, and every node's content equals the exact
substring of the original text at `[offset, offset + content.length)`.
(The span `[offset, end)` of the original claim may additionally cover
trailing whitespace, see `word_end_includes_trailing_space_cex`.) -/
theorem parse_single_invocation_plain_words (segs : List Seg)
    (hne : segs ≠ []) (hv : ∀ s ∈ segs, s.valid) :
    tryParseKeymapsText (keymapMarker ++ argsStr segs ++ [')']) none =
      .ok [segNodes 7 segs] ∧
    (segNodes 7 segs).length = segs.length ∧
    ∀ node ∈ segNodes 7 segs,
      node.content = jsSlice (keymapMarker ++ argsStr segs ++ [')'])
        node.offset (node.offset + node.content.length) := by
  have hlen7 : keymapMarker.length = 7 := rfl
  have hlenexpr : (keymapMarker ++ argsStr segs ++ [')']).length =
      7 + ((argsStr segs).length + 1) := by
    simp only [List.length_append, List.length_singleton, hlen7]
    omega
  have hargsmain := mainLoop_args segs (keymapMarker ++ argsStr segs ++ [')']) [] 8
    keymapMarker [] (-1) 1 hne hv (by simp) (by simp)
  rw [hlen7] at hargsmain
  have hfuel : (keymapMarker ++ argsStr segs ++ [')']).length + 1 =
      8 + ((argsStr segs).length + 1) := by
    rw [hlenexpr]
    omega
  have hmain : mainLoop (keymapMarker ++ argsStr segs ++ [')'])
      ((keymapMarker ++ argsStr segs ++ [')']).length + 1) (0 + 0 + 7) (0 + 0 + 7)
      [] (-1) 1 =
      .ok (segNodes 7 segs, 7 + (argsStr segs).length + 1, 0) := by
    rw [hfuel]
    show mainLoop _ _ 7 7 [] (-1) 1 = _
    rw [hargsmain]
    simp
  have hidx : indexOfFromAux keymapMarker
      ((keymapMarker ++ argsStr segs ++ [')']).drop 0) = some 0 := by
    rw [List.drop_zero]
    exact indexOfFromAux_prefix keymapMarker _ (argsStr segs ++ [')'])
      (by decide) (by simp)
  have hscan : scanKeymaps (keymapMarker ++ argsStr segs ++ [')'])
      ((keymapMarker ++ argsStr segs ++ [')']).length + 1) 0 [] =
      .ok ([segNodes 7 segs], 7 + (argsStr segs).length + 1) := by
    rw [scan_step_ok (keymapMarker ++ argsStr segs ++ [')'])
      (keymapMarker ++ argsStr segs ++ [')']).length 0 0 []
      (segNodes 7 segs) (7 + (argsStr segs).length + 1) hidx hmain]
    rw [scan_none]
    · rfl
    · have hpos : 7 + (argsStr segs).length + 1 =
          (keymapMarker ++ argsStr segs ++ [')']).length := by
        rw [hlenexpr]; omega
      rw [hpos, List.drop_length]
      rfl
  have hwe : tryParseKeymapsTextWithEnd (keymapMarker ++ argsStr segs ++ [')']) none =
      .ok ([segNodes 7 segs], 7 + (argsStr segs).length + 1) := by
    rw [tryParseKeymapsTextWithEnd, hscan]
    simp
  refine ⟨?_, segNodes_length 7 segs, ?_⟩
  · rw [tryParseKeymapsText, hwe]
  · have := segNodes_content segs (keymapMarker ++ argsStr segs ++ [')']) [')']
      keymapMarker hv (by simp)
    rw [hlen7] at this
    intro node hn
    exact this node hn

end Keymapc

namespace Keymapc

/-- C1, witness: the two-argument instance `"KEYMAP(KC_A , KC_B)"` (with
whitespace padding around the comma). -/
theorem parse_single_invocation_plain_words_witness :
    tryParseKeymapsText
      (keymapMarker ++
        argsStr [Seg.mk [] "KC_A".data [' '], Seg.mk [' '] "KC_B".data []] ++ [')'])
      none =
      .ok [segNodes 7 [Seg.mk [] "KC_A".data [' '], Seg.mk [' '] "KC_B".data []]] ∧
    (segNodes 7 [Seg.mk [] "KC_A".data [' '], Seg.mk [' '] "KC_B".data []]).length =
      [Seg.mk [] "KC_A".data [' '], Seg.mk [' '] "KC_B".data []].length ∧
    ∀ node ∈ segNodes 7 [Seg.mk [] "KC_A".data [' '], Seg.mk [' '] "KC_B".data []],
      node.content = jsSlice
        (keymapMarker ++
          argsStr [Seg.mk [] "KC_A".data [' '], Seg.mk [' '] "KC_B".data []] ++ [')'])
        node.offset (node.offset + node.content.length) :=
  parse_single_invocation_plain_words
    [Seg.mk [] "KC_A".data [' '], Seg.mk [' '] "KC_B".data []]
    (by simp)
    (by
      intro s hs
      simp only [List.mem_cons, List.not_mem_nil, or_false] at hs
      rcases hs with rfl | rfl
      · exact ⟨by decide, by decide, by decide, by decide⟩
      · exact ⟨by decide, by decide, by decide, by decide⟩)

end Keymapc

namespace Keymapc

/-- Position and depth bookkeeping of a successful loop run: either the
loop returned immediately (past the end of the text), or the final cursor
moved strictly forward; and the depth counter drops by at most one. -/
theorem mainLoop_MB (expr : List Char) (fuel : Nat) :
    ∀ (start pos : Nat) (arr : List AstNode) (lt pc : Int)
      (arr' : List AstNode) (p' : Nat) (pc' : Int),
    mainLoop expr fuel start pos arr lt pc = .ok (arr', p', pc') →
    ((p' = pos ∧ pc' = pc ∧ arr' = arr) ∨ pos < p') ∧ pc - 1 ≤ pc' := by
  induction fuel with
  | zero =>
    intro start pos arr lt pc arr' p' pc' h
    cases hget : expr.get? pos with
    | none =>
      rw [mainLoop_at_end expr 0 start pos arr lt pc (List.get?_eq_none.mp hget)] at h
      injection h with h1
      injection h1 with ha h2
      injection h2 with hp hc
      exact ⟨Or.inl ⟨hp.symm, hc.symm, ha.symm⟩, by omega⟩
    | some c =>
      rw [mainLoop.eq_def, hget] at h
      cases h
  | succ f ih =>
    intro start pos arr lt pc arr' p' pc' h
    cases hget : expr.get? pos with
    | none =>
      rw [mainLoop_at_end expr (f + 1) start pos arr lt pc
        (List.get?_eq_none.mp hget)] at h
      injection h with h1
      injection h1 with ha h2
      injection h2 with hp hc
      exact ⟨Or.inl ⟨hp.symm, hc.symm, ha.symm⟩, by omega⟩
    | some c =>
      rw [mainLoop_step expr c f start pos arr lt pc hget] at h
      simp only [mainBody] at h
      by_cases h1 : c = '\\' ∧ expr.get? (pos + 1) = some '\n'
      · rw [if_pos h1] at h
        obtain ⟨hm, hb⟩ := ih _ _ _ _ _ _ _ _ h
        refine ⟨Or.inr ?_, hb⟩
        rcases hm with ⟨rfl, -, -⟩ | hlt2 <;> omega
      · rw [if_neg h1] at h
        by_cases h2 : c = '/' ∧ expr.get? (pos + 1) = some '*'
        · rw [if_pos h2] at h
          cases haw : addWord expr start arr pos with
          | error e => rw [haw] at h; cases h
          | ok p =>
            obtain ⟨arr2, b⟩ := p
            rw [haw] at h
            have h' : (match findPairAux '*' '/' (expr.drop (pos + 1)) with
                | some j =>
                  mainLoop expr f (pos + 1 + j + 2) (pos + 1 + j + 2) arr2 lt pc
                | none => mainLoop expr f start expr.length arr2 lt pc) =
                .ok (arr', p', pc') := h
            cases hfp : findPairAux '*' '/' (expr.drop (pos + 1)) with
            | some j =>
              rw [hfp] at h'
              obtain ⟨hm, hb⟩ := ih _ _ _ _ _ _ _ _ h'
              refine ⟨Or.inr ?_, hb⟩
              rcases hm with ⟨rfl, -, -⟩ | hlt2 <;> omega
            | none =>
              rw [hfp] at h'
              obtain ⟨hm, hb⟩ := ih _ _ _ _ _ _ _ _ h'
              refine ⟨?_, hb⟩
              have hplen : pos < expr.length := by
                by_contra hc2
                rw [List.get?_eq_none.mpr (by omega)] at hget
                cases hget
              rcases hm with ⟨rfl, -, -⟩ | hlt2 <;> [exact Or.inr hplen; exact Or.inr (by omega)]
        · rw [if_neg h2] at h
          by_cases h3 : c = '/' ∧ expr.get? (pos + 1) = some '/'
          · rw [if_pos h3] at h
            cases haw : addWord expr start arr pos with
            | error e => rw [haw] at h; cases h
            | ok p =>
              obtain ⟨arr2, b⟩ := p
              rw [haw] at h
              have h' : (match findCharAux '\n' (expr.drop (pos + 1)) with
                  | some j =>
                    mainLoop expr f (pos + 1 + j + 2) (pos + 1 + j + 2) arr2 lt pc
                  | none => mainLoop expr f start expr.length arr2 lt pc) =
                  .ok (arr', p', pc') := h
              cases hfp : findCharAux '\n' (expr.drop (pos + 1)) with
              | some j =>
                rw [hfp] at h'
                obtain ⟨hm, hb⟩ := ih _ _ _ _ _ _ _ _ h'
                refine ⟨Or.inr ?_, hb⟩
                rcases hm with ⟨rfl, -, -⟩ | hlt2 <;> omega
              | none =>
                rw [hfp] at h'
                obtain ⟨hm, hb⟩ := ih _ _ _ _ _ _ _ _ h'
                refine ⟨?_, hb⟩
                have hplen : pos < expr.length := by
                  by_contra hc2
                  rw [List.get?_eq_none.mpr (by omega)] at hget
                  cases hget
                rcases hm with ⟨rfl, -, -⟩ | hlt2 <;> [exact Or.inr hplen; exact Or.inr (by omega)]
          · rw [if_neg h3] at h
            by_cases h4 : c = ','
            · rw [if_pos h4] at h
              cases haw : addWord expr start arr pos with
              | error e => rw [haw] at h; cases h
              | ok p =>
                obtain ⟨arr2, b⟩ := p
                rw [haw] at h
                have h' : (match ensureTokenExists (pos + 1) arr2 lt with
                    | .error err => .error err
                    | .ok lt2 => mainLoop expr f (pos + 1) (pos + 1) arr2 lt2 pc) =
                    Except.ok (arr', p', pc') := h
                cases hens : ensureTokenExists (pos + 1) arr2 lt with
                | error e => rw [hens] at h'; cases h'
                | ok lt2 =>
                  rw [hens] at h'
                  obtain ⟨hm, hb⟩ := ih _ _ _ _ _ _ _ _ h'
                  refine ⟨Or.inr ?_, hb⟩
                  rcases hm with ⟨rfl, -, -⟩ | hlt2 <;> omega
            · rw [if_neg h4] at h
              by_cases h5 : c = '('
              · rw [if_pos h5] at h
                by_cases h6 : pos ≤ start
                · rw [if_pos h6] at h; cases h
                · rw [if_neg h6] at h
                  by_cases h7 : (tokenWithoutSpaces (jsSlice expr start pos)).2 = []
                  · rw [if_pos h7] at h; cases h
                  · rw [if_neg h7] at h
                    by_cases h8 : ((tokenWithoutSpaces (jsSlice expr start pos)).2.any
                        isJsSpace) = true
                    · rw [if_pos h8] at h; cases h
                    · rw [if_neg h8] at h
                      cases hin : mainLoop expr f (pos + 1) (pos + 1) [] (-1) pc with
                      | error e => rw [hin] at h; cases h
                      | ok q =>
                        obtain ⟨params, p1, pc1⟩ := q
                        rw [hin] at h
                        have h' : (match params.getLast? with
                            | none => Except.error ParseErr.emptyParamsAccess
                            | some lastParam =>
                              mainLoop expr f p1 p1
                                (arr ++ [AstNode.func
                                  (tokenWithoutSpaces (jsSlice expr start pos)).2 params
                                  (start + (tokenWithoutSpaces (jsSlice expr start pos)).1)
                                  (lastParam.endPos + 1)
                                  (jsSlice expr
                                    (start + (tokenWithoutSpaces (jsSlice expr start pos)).1)
                                    (lastParam.endPos + 1))])
                                lt (pc1 + 1)) = Except.ok (arr', p', pc') := h
                        cases hlast : params.getLast? with
                        | none => rw [hlast] at h'; cases h'
                        | some lastParam =>
                          rw [hlast] at h'
                          obtain ⟨hm1, hb1⟩ := ih _ _ _ _ _ _ _ _ hin
                          obtain ⟨hm2, hb2⟩ := ih _ _ _ _ _ _ _ _ h'
                          have hpos1 : pos < p1 := by
                            rcases hm1 with ⟨rfl, -, hpe⟩ | hlt2
                            · subst hpe
                              cases hlast
                            · omega
                          refine ⟨Or.inr ?_, by omega⟩
                          rcases hm2 with ⟨rfl, -, -⟩ | hlt2 <;> omega
              · rw [if_neg h5] at h
                by_cases h6 : c = ')'
                · rw [if_pos h6] at h
                  cases haw : addWord expr start arr pos with
                  | error e => rw [haw] at h; cases h
                  | ok p =>
                    obtain ⟨arr2, b⟩ := p
                    rw [haw] at h
                    have h' : (match ensureTokenExists (pos + 1) arr2 lt with
                        | .error err => .error err
                        | .ok _ => Except.ok (arr2, pos + 1, pc - 1)) =
                        Except.ok (arr', p', pc') := h
                    cases hens : ensureTokenExists (pos + 1) arr2 lt with
                    | error e => rw [hens] at h'; cases h'
                    | ok lt2 =>
                      rw [hens] at h'
                      injection h' with h1
                      injection h1 with ha hrest
                      injection hrest with hp hc
                      exact ⟨Or.inr (by omega), by omega⟩
                · rw [if_neg h6] at h
                  obtain ⟨hm, hb⟩ := ih _ _ _ _ _ _ _ _ h
                  refine ⟨Or.inr ?_, hb⟩
                  rcases hm with ⟨rfl, -, -⟩ | hlt2 <;> omega

end Keymapc

namespace Keymapc

/-- `addWord` preserves an upper bound on node end positions when the
flush position respects it. -/
theorem addWord_endPos (expr : List Char) (start : Nat) (arr : List AstNode)
    (e : Nat) (arr2 : List AstNode) (b : Bool) (B : Nat)
    (h : addWord expr start arr e = .ok (arr2, b))
    (harr : ∀ nd ∈ arr, nd.endPos ≤ B) (he : e ≤ B) :
    ∀ nd ∈ arr2, nd.endPos ≤ B := by
  rw [addWord] at h
  by_cases h1 : e ≤ start
  · rw [if_pos h1] at h
    injection h with h2
    injection h2 with ha hb
    subst ha
    exact harr
  · rw [if_neg h1] at h
    by_cases h2 : (tokenWithoutSpaces (jsSlice expr start e)).2 = []
    · rw [if_pos h2] at h
      injection h with h3
      injection h3 with ha hb
      subst ha
      exact harr
    · rw [if_neg h2] at h
      by_cases h3 : ((tokenWithoutSpaces (jsSlice expr start e)).2.any isJsSpace) = true
      · rw [if_pos h3] at h; cases h
      · rw [if_neg h3] at h
        injection h with h4
        injection h4 with ha hb
        subst ha
        intro nd hnd
        rcases List.mem_append.mp hnd with hmem | hmem
        · exact harr nd hmem
        · rw [List.mem_singleton.mp hmem]
          exact he

/-- Every node of a successful parenthesis-closed run ends strictly before
the final cursor (which sits one past the closing parenthesis). -/
theorem mainLoop_endPos (expr : List Char) (fuel : Nat) :
    ∀ (start pos : Nat) (arr : List AstNode) (lt pc : Int)
      (arr' : List AstNode) (p' : Nat) (pc' : Int),
    mainLoop expr fuel start pos arr lt pc = .ok (arr', p', pc') →
    pc' < pc →
    (∀ nd ∈ arr, nd.endPos ≤ pos) →
    ∀ nd ∈ arr', nd.endPos ≤ p' - 1 := by
  induction fuel with
  | zero =>
    intro start pos arr lt pc arr' p' pc' h hpc harr
    cases hget : expr.get? pos with
    | none =>
      rw [mainLoop_at_end expr 0 start pos arr lt pc (List.get?_eq_none.mp hget)] at h
      injection h with h1
      injection h1 with ha h2
      injection h2 with hp hc
      omega
    | some c =>
      rw [mainLoop.eq_def, hget] at h
      cases h
  | succ f ih =>
    intro start pos arr lt pc arr' p' pc' h hpc harr
    cases hget : expr.get? pos with
    | none =>
      rw [mainLoop_at_end expr (f + 1) start pos arr lt pc
        (List.get?_eq_none.mp hget)] at h
      injection h with h1
      injection h1 with ha h2
      injection h2 with hp hc
      omega
    | some c =>
      rw [mainLoop_step expr c f start pos arr lt pc hget] at h
      simp only [mainBody] at h
      by_cases h1 : c = '\\' ∧ expr.get? (pos + 1) = some '\n'
      · rw [if_pos h1] at h
        exact ih _ _ _ _ _ _ _ _ h hpc (fun nd hnd => le_trans (harr nd hnd) (by omega))
      · rw [if_neg h1] at h
        by_cases h2 : c = '/' ∧ expr.get? (pos + 1) = some '*'
        · rw [if_pos h2] at h
          cases haw : addWord expr start arr pos with
          | error e => rw [haw] at h; cases h
          | ok p =>
            obtain ⟨arr2, b⟩ := p
            rw [haw] at h
            have h' : (match findPairAux '*' '/' (expr.drop (pos + 1)) with
                | some j =>
                  mainLoop expr f (pos + 1 + j + 2) (pos + 1 + j + 2) arr2 lt pc
                | none => mainLoop expr f start expr.length arr2 lt pc) =
                .ok (arr', p', pc') := h
            have harr2 : ∀ nd ∈ arr2, nd.endPos ≤ pos :=
              addWord_endPos expr start arr pos arr2 b pos haw harr (le_refl _)
            cases hfp : findPairAux '*' '/' (expr.drop (pos + 1)) with
            | some j =>
              rw [hfp] at h'
              exact ih _ _ _ _ _ _ _ _ h' hpc
                (fun nd hnd => le_trans (harr2 nd hnd) (by omega))
            | none =>
              rw [hfp] at h'
              have h2' : mainLoop expr f start expr.length arr2 lt pc =
                  .ok (arr', p', pc') := h'
              rw [mainLoop_at_end expr f start expr.length arr2 lt pc (le_refl _)] at h2'
              injection h2' with hq
              injection hq with ha hq2
              injection hq2 with hq3 hq4
              omega
        · rw [if_neg h2] at h
          by_cases h3 : c = '/' ∧ expr.get? (pos + 1) = some '/'
          · rw [if_pos h3] at h
            cases haw : addWord expr start arr pos with
            | error e => rw [haw] at h; cases h
            | ok p =>
              obtain ⟨arr2, b⟩ := p
              rw [haw] at h
              have h' : (match findCharAux '\n' (expr.drop (pos + 1)) with
                  | some j =>
                    mainLoop expr f (pos + 1 + j + 2) (pos + 1 + j + 2) arr2 lt pc
                  | none => mainLoop expr f start expr.length arr2 lt pc) =
                  .ok (arr', p', pc') := h
              have harr2 : ∀ nd ∈ arr2, nd.endPos ≤ pos :=
                addWord_endPos expr start arr pos arr2 b pos haw harr (le_refl _)
              cases hfp : findCharAux '\n' (expr.drop (pos + 1)) with
              | some j =>
                rw [hfp] at h'
                exact ih _ _ _ _ _ _ _ _ h' hpc
                  (fun nd hnd => le_trans (harr2 nd hnd) (by omega))
              | none =>
                rw [hfp] at h'
                have h2' : mainLoop expr f start expr.length arr2 lt pc =
                    .ok (arr', p', pc') := h'
                rw [mainLoop_at_end expr f start expr.length arr2 lt pc (le_refl _)] at h2'
                injection h2' with hq
                injection hq with ha hq2
                injection hq2 with hq3 hq4
                omega
          · rw [if_neg h3] at h
            by_cases h4 : c = ','
            · rw [if_pos h4] at h
              cases haw : addWord expr start arr pos with
              | error e => rw [haw] at h; cases h
              | ok p =>
                obtain ⟨arr2, b⟩ := p
                rw [haw] at h
                have h' : (match ensureTokenExists (pos + 1) arr2 lt with
                    | .error err => .error err
                    | .ok lt2 => mainLoop expr f (pos + 1) (pos + 1) arr2 lt2 pc) =
                    Except.ok (arr', p', pc') := h
                have harr2 : ∀ nd ∈ arr2, nd.endPos ≤ pos :=
                  addWord_endPos expr start arr pos arr2 b pos haw harr (le_refl _)
                cases hens : ensureTokenExists (pos + 1) arr2 lt with
                | error e => rw [hens] at h'; cases h'
                | ok lt2 =>
                  rw [hens] at h'
                  exact ih _ _ _ _ _ _ _ _ h' hpc
                    (fun nd hnd => le_trans (harr2 nd hnd) (by omega))
            · rw [if_neg h4] at h
              by_cases h5 : c = '('
              · rw [if_pos h5] at h
                by_cases h6 : pos ≤ start
                · rw [if_pos h6] at h; cases h
                · rw [if_neg h6] at h
                  by_cases h7 : (tokenWithoutSpaces (jsSlice expr start pos)).2 = []
                  · rw [if_pos h7] at h; cases h
                  · rw [if_neg h7] at h
                    by_cases h8 : ((tokenWithoutSpaces (jsSlice expr start pos)).2.any
                        isJsSpace) = true
                    · rw [if_pos h8] at h; cases h
                    · rw [if_neg h8] at h
                      cases hin : mainLoop expr f (pos + 1) (pos + 1) [] (-1) pc with
                      | error e => rw [hin] at h; cases h
                      | ok q =>
                        obtain ⟨params, p1, pc1⟩ := q
                        rw [hin] at h
                        have h' : (match params.getLast? with
                            | none => Except.error ParseErr.emptyParamsAccess
                            | some lastParam =>
                              mainLoop expr f p1 p1
                                (arr ++ [AstNode.func
                                  (tokenWithoutSpaces (jsSlice expr start pos)).2 params
                                  (start + (tokenWithoutSpaces (jsSlice expr start pos)).1)
                                  (lastParam.endPos + 1)
                                  (jsSlice expr
                                    (start + (tokenWithoutSpaces (jsSlice expr start pos)).1)
                                    (lastParam.endPos + 1))])
                                lt (pc1 + 1)) = Except.ok (arr', p', pc') := h
                        cases hlast : params.getLast? with
                        | none => rw [hlast] at h'; cases h'
                        | some lastParam =>
                          rw [hlast] at h'
                          obtain ⟨hm1, hb1⟩ := mainLoop_MB expr f _ _ _ _ _ _ _ _ hin
                          obtain ⟨hm2, hb2⟩ := mainLoop_MB expr f _ _ _ _ _ _ _ _ h'
                          have hpc1 : pc1 < pc := by omega
                          have hparams : ∀ nd ∈ params, nd.endPos ≤ p1 - 1 :=
                            ih _ _ _ _ _ _ _ _ hin hpc1 (by intro nd hnd; cases hnd)
                          have hpos1 : pos + 1 ≤ p1 := by
                            rcases hm1 with ⟨rfl, -, hpe⟩ | hlt2
                            · omega
                            · omega
                          have hpe : lastParam.endPos ≤ p1 - 1 :=
                            hparams lastParam (List.mem_of_mem_getLast? hlast)
                          have hp1pos : pos + 1 < p1 ∨ p1 = pos + 1 := by omega
                          have harrnode : ∀ nd ∈ arr ++ [AstNode.func
                              (tokenWithoutSpaces (jsSlice expr start pos)).2 params
                              (start + (tokenWithoutSpaces (jsSlice expr start pos)).1)
                              (lastParam.endPos + 1)
                              (jsSlice expr
                                (start + (tokenWithoutSpaces (jsSlice expr start pos)).1)
                                (lastParam.endPos + 1))], nd.endPos ≤ p1 := by
                            intro nd hnd
                            rcases List.mem_append.mp hnd with hmem | hmem
                            · exact le_trans (harr nd hmem) (by omega)
                            · rw [List.mem_singleton.mp hmem]
                              show lastParam.endPos + 1 ≤ p1
                              have hp1ne : p1 ≠ pos + 1 := by
                                intro he
                                rcases hm1 with ⟨-, -, hpe2⟩ | hlt2
                                · subst hpe2; cases hlast
                                · omega
                              omega
                          exact ih _ _ _ _ _ _ _ _ h' (by omega) harrnode
              · rw [if_neg h5] at h
                by_cases h6 : c = ')'
                · rw [if_pos h6] at h
                  cases haw : addWord expr start arr pos with
                  | error e => rw [haw] at h; cases h
                  | ok p =>
                    obtain ⟨arr2, b⟩ := p
                    rw [haw] at h
                    have h' : (match ensureTokenExists (pos + 1) arr2 lt with
                        | .error err => .error err
                        | .ok _ => Except.ok (arr2, pos + 1, pc - 1)) =
                        Except.ok (arr', p', pc') := h
                    have harr2 : ∀ nd ∈ arr2, nd.endPos ≤ pos :=
                      addWord_endPos expr start arr pos arr2 b pos haw harr (le_refl _)
                    cases hens : ensureTokenExists (pos + 1) arr2 lt with
                    | error e => rw [hens] at h'; cases h'
                    | ok lt2 =>
                      rw [hens] at h'
                      injection h' with h1
                      injection h1 with ha hrest
                      injection hrest with hp hc
                      subst ha
                      intro nd hnd
                      have := harr2 nd hnd
                      omega
                · rw [if_neg h6] at h
                  exact ih _ _ _ _ _ _ _ _ h hpc
                    (fun nd hnd => le_trans (harr nd hnd) (by omega))

end Keymapc

namespace Keymapc

/-- Prefix agreement restricts to shorter prefixes. -/
theorem take_agree_of_le (l l' : List Char) (p n : Nat)
    (h : l'.take p = l.take p) (hn : n ≤ p) : l'.take n = l.take n := by
  have h2 := congrArg (List.take n) h
  rwa [List.take_take, List.take_take, Nat.min_eq_left hn] at h2

/-- Prefix agreement determines reads below the boundary. -/
theorem get_agree_of_lt (l l' : List Char) (p i : Nat)
    (h : l'.take p = l.take p) (hi : i < p) : l'.get? i = l.get? i := by
  have h2 := congrArg (fun t => List.get? t i) h
  simp only at h2
  rwa [List.get?_take hi, List.get?_take hi] at h2

/-- Prefix agreement restricts to windows inside the boundary. -/
theorem drop_take_agree (l l' : List Char) (p m k : Nat)
    (h : l'.take p = l.take p) (hmk : m + k ≤ p) :
    (l'.drop m).take k = (l.drop m).take k := by
  rw [List.take_drop, List.take_drop]
  rw [take_agree_of_le l l' p (m + k) h hmk]

/-- Prefix agreement determines slices inside the boundary. -/
theorem jsSlice_agree (l l' : List Char) (p a b : Nat)
    (h : l'.take p = l.take p) (hb : b ≤ p) :
    jsSlice l' a b = jsSlice l a b := by
  rw [jsSlice, jsSlice, take_agree_of_le l l' p b h hb]

/-- The block-comment scan is determined by the text up to and including
the terminator pair. -/
theorem findPairAux_agree (a b : Char) : ∀ (l l' : List Char) (j : Nat),
    findPairAux a b l = some j → l'.take (j + 2) = l.take (j + 2) →
    findPairAux a b l' = some j
  | [], _, j, h, _ => by simp [findPairAux] at h
  | [_], _, j, h, _ => by simp [findPairAux] at h
  | x :: y :: rest, l', j, h, hagree => by
    rw [findPairAux] at h
    by_cases hxy : x = a ∧ y = b
    · rw [if_pos hxy] at h
      injection h with hj
      subst hj
      have h2 : l'.take 2 = [x, y] := by rw [hagree]; rfl
      cases l' with
      | nil => simp at h2
      | cons x' tl' =>
        cases tl' with
        | nil => simp at h2
        | cons y' rest' =>
          simp only [List.take_succ_cons, List.take_zero] at h2
          injection h2 with e1 e2
          injection e2 with e3 e4
          rw [findPairAux, if_pos (by rw [e1, e3]; exact hxy)]
    · rw [if_neg hxy] at h
      cases hrec : findPairAux a b (y :: rest) with
      | none => rw [hrec] at h; cases h
      | some j0 =>
        rw [hrec] at h
        have hmap : some (j0 + 1) = some j := h
        injection hmap with hj
        subst hj
        cases l' with
        | nil =>
          exfalso
          rw [List.take_nil] at hagree
          have hr : (x :: y :: rest).take (j0 + 1 + 2) =
              x :: (y :: rest).take (j0 + 1 + 1) := rfl
          rw [hr] at hagree
          cases hagree
        | cons x' tl' =>
          have r1 : (x' :: tl').take (j0 + 1 + 2) =
              x' :: tl'.take (j0 + 1 + 1) := rfl
          have r2 : (x :: y :: rest).take (j0 + 1 + 2) =
              x :: (y :: rest).take (j0 + 1 + 1) := rfl
          rw [r1, r2] at hagree
          injection hagree with e1 e2
          subst e1
          have hrec' := findPairAux_agree a b (y :: rest) tl' j0 hrec e2
          have htlne : tl' ≠ [] := by
            intro he
            subst he
            rw [List.take_nil] at e2
            have hr3 : (y :: rest).take (j0 + 1 + 1) = y :: rest.take (j0 + 1) := rfl
            rw [hr3] at e2
            cases e2
          obtain ⟨y', rest', rfl⟩ := List.exists_cons_of_ne_nil htlne
          have hy : y' = y := by
            have r3 : (y' :: rest').take (j0 + 1 + 1) = y' :: rest'.take (j0 + 1) := rfl
            have r4 : (y :: rest).take (j0 + 1 + 1) = y :: rest.take (j0 + 1) := rfl
            rw [r3, r4] at e2
            injection e2 with e3 e4
          rw [findPairAux, if_neg (by rw [hy]; exact hxy), hrec']
          rfl

/-- The line-comment scan is determined by the text up to and including
the newline. -/
theorem findCharAux_agree (a : Char) : ∀ (l l' : List Char) (j : Nat),
    findCharAux a l = some j → l'.take (j + 1) = l.take (j + 1) →
    findCharAux a l' = some j
  | [], _, j, h, _ => by simp [findCharAux] at h
  | x :: rest, l', j, h, hagree => by
    rw [findCharAux] at h
    by_cases hx : x = a
    · rw [if_pos hx] at h
      injection h with hj
      subst hj
      have h2 : l'.take 1 = [x] := by rw [hagree]; rfl
      cases l' with
      | nil => simp at h2
      | cons x' tl' =>
        simp only [List.take_succ_cons, List.take_zero] at h2
        injection h2 with e1 e2
        rw [findCharAux, if_pos (by rw [e1]; exact hx)]
    · rw [if_neg hx] at h
      cases hrec : findCharAux a rest with
      | none => rw [hrec] at h; cases h
      | some j0 =>
        rw [hrec] at h
        have hmap : some (j0 + 1) = some j := h
        injection hmap with hj
        subst hj
        cases l' with
        | nil =>
          exfalso
          rw [List.take_nil] at hagree
          have hr : (x :: rest).take (j0 + 1 + 1) = x :: rest.take (j0 + 1) := rfl
          rw [hr] at hagree
          cases hagree
        | cons x' tl' =>
          have r1 : (x' :: tl').take (j0 + 1 + 1) = x' :: tl'.take (j0 + 1) := rfl
          have r2 : (x :: rest).take (j0 + 1 + 1) = x :: rest.take (j0 + 1) := rfl
          rw [r1, r2] at hagree
          injection hagree with e1 e2
          subst e1
          have hrec' := findCharAux_agree a rest tl' j0 hrec e2
          rw [findCharAux, if_neg hx, hrec']
          rfl

/-- The marker search is determined by the text up to the end of the found
occurrence. -/
theorem indexOfFromAux_agree (pat : List Char) (hpat : pat ≠ []) :
    ∀ (l l' : List Char) (j : Nat),
    indexOfFromAux pat l = some j →
    l'.take (j + pat.length) = l.take (j + pat.length) →
    indexOfFromAux pat l' = some j
  | [], _, j, h, _ => by simp [indexOfFromAux] at h
  | x :: rest, l', j, h, hagree => by
    rw [indexOfFromAux] at h
    by_cases hpre : pat.isPrefixOf (x :: rest) = true
    · rw [if_pos hpre] at h
      injection h with hj
      subst hj
      rw [Nat.zero_add] at hagree
      have hpre2 : pat <+: (x :: rest) := List.isPrefixOf_iff_prefix.mp hpre
      have htake : (x :: rest).take pat.length = pat :=
        (List.prefix_iff_eq_take.mp hpre2).symm
      have htake' : l'.take pat.length = pat := by rw [hagree, htake]
      cases l' with
      | nil =>
        exfalso
        apply hpat
        rw [List.take_nil] at htake'
        exact htake'.symm
      | cons x' tl' =>
        rw [indexOfFromAux, if_pos]
        exact List.isPrefixOf_iff_prefix.mpr
          (List.prefix_iff_eq_take.mpr htake'.symm)
    · rw [if_neg hpre] at h
      cases hrec : indexOfFromAux pat rest with
      | none => rw [hrec] at h; cases h
      | some j0 =>
        rw [hrec] at h
        have hmap : some (j0 + 1) = some j := h
        injection hmap with hj
        subst hj
        have hshape : j0 + 1 + pat.length = (j0 + pat.length) + 1 := by omega
        rw [hshape] at hagree
        cases l' with
        | nil =>
          exfalso
          rw [List.take_nil] at hagree
          have hr : (x :: rest).take ((j0 + pat.length) + 1) =
              x :: rest.take (j0 + pat.length) := rfl
          rw [hr] at hagree
          cases hagree
        | cons x' tl' =>
          have r1 : (x' :: tl').take ((j0 + pat.length) + 1) =
              x' :: tl'.take (j0 + pat.length) := rfl
          have r2 : (x :: rest).take ((j0 + pat.length) + 1) =
              x :: rest.take (j0 + pat.length) := rfl
          rw [r1, r2] at hagree
          injection hagree with e1 e2
          have hrec' := indexOfFromAux_agree pat hpat rest tl' j0 hrec e2
          have hnpre : ¬(pat.isPrefixOf (x :: tl') = true) := by
            intro hco
            apply hpre
            have hp2 : pat <+: (x :: tl') := List.isPrefixOf_iff_prefix.mp hco
            have ht2 : (x :: tl').take pat.length = pat :=
              (List.prefix_iff_eq_take.mp hp2).symm
            have hagree3 : (x :: tl').take ((j0 + pat.length) + 1) =
                (x :: rest).take ((j0 + pat.length) + 1) := by
              have r3 : (x :: tl').take ((j0 + pat.length) + 1) =
                  x :: tl'.take (j0 + pat.length) := rfl
              have r4 : (x :: rest).take ((j0 + pat.length) + 1) =
                  x :: rest.take (j0 + pat.length) := rfl
              rw [r3, r4, e2]
            have ht3 : (x :: rest).take pat.length = pat := by
              rw [← take_agree_of_le (x :: rest) (x :: tl') ((j0 + pat.length) + 1)
                pat.length hagree3 (by omega)]
              exact ht2
            exact List.isPrefixOf_iff_prefix.mpr
              (List.prefix_iff_eq_take.mpr ht3.symm)
          rw [e1, indexOfFromAux, if_neg hnpre, hrec']
          rfl

end Keymapc

namespace Keymapc

/-- `addWord` depends on the text only through the flushed slice. -/
theorem addWord_congr (expr expr' : List Char) (start : Nat) (arr : List AstNode)
    (e : Nat) (h : jsSlice expr' start e = jsSlice expr start e) :
    addWord expr' start arr e = addWord expr start arr e := by
  rw [addWord, addWord, h]

/-- A parenthesis-closed run of the loop is determined by the text up to
the final cursor: on any text agreeing there (and with any surplus fuel)
the run is identical. -/
theorem mainLoop_stable (expr : List Char) (fuel : Nat) :
    ∀ (start pos : Nat) (arr : List AstNode) (lt pc : Int)
      (arr' : List AstNode) (p' : Nat) (pc' : Int) (expr' : List Char) (d : Nat),
    mainLoop expr fuel start pos arr lt pc = .ok (arr', p', pc') →
    pc' < pc →
    expr'.take p' = expr.take p' →
    mainLoop expr' (fuel + d) start pos arr lt pc = .ok (arr', p', pc') := by
  induction fuel with
  | zero =>
    intro start pos arr lt pc arr' p' pc' expr' d h hpc hagree
    cases hget : expr.get? pos with
    | none =>
      rw [mainLoop_at_end expr 0 start pos arr lt pc (List.get?_eq_none.mp hget)] at h
      injection h with h1
      injection h1 with ha h2
      injection h2 with hp hc
      omega
    | some c =>
      rw [mainLoop.eq_def, hget] at h
      cases h
  | succ f ih =>
    intro start pos arr lt pc arr' p' pc' expr' d h hpc hagree
    cases hget : expr.get? pos with
    | none =>
      rw [mainLoop_at_end expr (f + 1) start pos arr lt pc
        (List.get?_eq_none.mp hget)] at h
      injection h with h1
      injection h1 with ha h2
      injection h2 with hp hc
      omega
    | some c =>
      have hpos : pos < p' := by
        obtain ⟨hm, -⟩ := mainLoop_MB expr (f + 1) _ _ _ _ _ _ _ _ h
        rcases hm with ⟨-, hq, -⟩ | hq
        · omega
        · exact hq
      have hget' : expr'.get? pos = some c := by
        rw [get_agree_of_lt expr expr' p' pos hagree hpos, hget]
      rw [mainLoop_step expr c f start pos arr lt pc hget] at h
      simp only [mainBody] at h
      rw [show f + 1 + d = (f + d) + 1 from by omega,
        mainLoop_step expr' c (f + d) start pos arr lt pc hget']
      simp only [mainBody]
      have hsl : jsSlice expr' start pos = jsSlice expr start pos :=
        jsSlice_agree expr expr' p' start pos hagree (by omega)
      by_cases hA : c = '\\'
      · subst hA
        by_cases hA2 : expr.get? (pos + 1) = some '\n'
        · rw [if_pos ⟨rfl, hA2⟩] at h
          have hp2 : pos + 2 < p' := by
            obtain ⟨hm, -⟩ := mainLoop_MB expr f _ _ _ _ _ _ _ _ h
            rcases hm with ⟨-, hq, -⟩ | hq
            · omega
            · exact hq
          have hA2' : expr'.get? (pos + 1) = some '\n' := by
            rw [get_agree_of_lt expr expr' p' (pos + 1) hagree (by omega), hA2]
          rw [if_pos ⟨rfl, hA2'⟩]
          exact ih _ _ _ _ _ _ _ _ _ _ h hpc hagree
        · rw [if_neg (fun hco => hA2 hco.2), if_neg (by simp), if_neg (by simp),
            if_neg (by decide), if_neg (by decide), if_neg (by decide)] at h
          have hp1 : pos + 1 < p' := by
            obtain ⟨hm, -⟩ := mainLoop_MB expr f _ _ _ _ _ _ _ _ h
            rcases hm with ⟨-, hq, -⟩ | hq
            · omega
            · exact hq
          have hA2' : ¬(expr'.get? (pos + 1) = some '\n') := by
            rw [get_agree_of_lt expr expr' p' (pos + 1) hagree hp1]
            exact hA2
          rw [if_neg (fun hco => hA2' hco.2), if_neg (by simp), if_neg (by simp),
            if_neg (by decide), if_neg (by decide), if_neg (by decide)]
          exact ih _ _ _ _ _ _ _ _ _ _ h hpc hagree
      · by_cases hB : c = '/'
        · subst hB
          by_cases hB2 : expr.get? (pos + 1) = some '*'
          · rw [if_neg (by simp), if_pos ⟨rfl, hB2⟩] at h
            cases haw : addWord expr start arr pos with
            | error e => rw [haw] at h; cases h
            | ok p =>
              obtain ⟨arr2, b⟩ := p
              rw [haw] at h
              have h' : (match findPairAux '*' '/' (expr.drop (pos + 1)) with
                  | some j =>
                    mainLoop expr f (pos + 1 + j + 2) (pos + 1 + j + 2) arr2 lt pc
                  | none => mainLoop expr f start expr.length arr2 lt pc) =
                  .ok (arr', p', pc') := h
              cases hfp : findPairAux '*' '/' (expr.drop (pos + 1)) with
              | none =>
                exfalso
                rw [hfp] at h'
                have h2' : mainLoop expr f start expr.length arr2 lt pc =
                    .ok (arr', p', pc') := h'
                rw [mainLoop_at_end expr f start expr.length arr2 lt pc (le_refl _)] at h2'
                injection h2' with hq
                injection hq with ha hq2
                injection hq2 with hq3 hq4
                omega
              | some j =>
                rw [hfp] at h'
                have hq : pos + 1 + j + 2 < p' := by
                  obtain ⟨hm, -⟩ := mainLoop_MB expr f _ _ _ _ _ _ _ _ h'
                  rcases hm with ⟨-, hq2, -⟩ | hq2
                  · omega
                  · exact hq2
                have hB2' : expr'.get? (pos + 1) = some '*' := by
                  rw [get_agree_of_lt expr expr' p' (pos + 1) hagree (by omega), hB2]
                rw [if_neg (by simp), if_pos ⟨rfl, hB2'⟩]
                rw [addWord_congr expr expr' start arr pos hsl, haw]
                have hfp' : findPairAux '*' '/' (expr'.drop (pos + 1)) = some j :=
                  findPairAux_agree '*' '/' (expr.drop (pos + 1)) (expr'.drop (pos + 1))
                    j hfp
                    (drop_take_agree expr expr' p' (pos + 1) (j + 2) hagree (by omega))
                show (match findPairAux '*' '/' (expr'.drop (pos + 1)) with
                    | some j2 =>
                      mainLoop expr' (f + d) (pos + 1 + j2 + 2) (pos + 1 + j2 + 2) arr2 lt pc
                    | none => mainLoop expr' (f + d) start expr'.length arr2 lt pc) =
                    .ok (arr', p', pc')
                rw [hfp']
                exact ih _ _ _ _ _ _ _ _ _ _ h' hpc hagree
          · by_cases hB3 : expr.get? (pos + 1) = some '/'
            · rw [if_neg (by simp), if_neg (fun hco => hB2 hco.2),
                if_pos ⟨rfl, hB3⟩] at h
              cases haw : addWord expr start arr pos with
              | error e => rw [haw] at h; cases h
              | ok p =>
                obtain ⟨arr2, b⟩ := p
                rw [haw] at h
                have h' : (match findCharAux '\n' (expr.drop (pos + 1)) with
                    | some j =>
                      mainLoop expr f (pos + 1 + j + 2) (pos + 1 + j + 2) arr2 lt pc
                    | none => mainLoop expr f start expr.length arr2 lt pc) =
                    .ok (arr', p', pc') := h
                cases hfp : findCharAux '\n' (expr.drop (pos + 1)) with
                | none =>
                  exfalso
                  rw [hfp] at h'
                  have h2' : mainLoop expr f start expr.length arr2 lt pc =
                      .ok (arr', p', pc') := h'
                  rw [mainLoop_at_end expr f start expr.length arr2 lt pc
                    (le_refl _)] at h2'
                  injection h2' with hq
                  injection hq with ha hq2
                  injection hq2 with hq3 hq4
                  omega
                | some j =>
                  rw [hfp] at h'
                  have hq : pos + 1 + j + 2 < p' := by
                    obtain ⟨hm, -⟩ := mainLoop_MB expr f _ _ _ _ _ _ _ _ h'
                    rcases hm with ⟨-, hq2, -⟩ | hq2
                    · omega
                    · exact hq2
                  have hB3' : expr'.get? (pos + 1) = some '/' := by
                    rw [get_agree_of_lt expr expr' p' (pos + 1) hagree (by omega), hB3]
                  have hB2' : ¬(expr'.get? (pos + 1) = some '*') := by
                    rw [hB3']
                    simp
                  rw [if_neg (by simp), if_neg (fun hco => hB2' hco.2),
                    if_pos ⟨rfl, hB3'⟩]
                  rw [addWord_congr expr expr' start arr pos hsl, haw]
                  have hfp' : findCharAux '\n' (expr'.drop (pos + 1)) = some j :=
                    findCharAux_agree '\n' (expr.drop (pos + 1)) (expr'.drop (pos + 1))
                      j hfp
                      (drop_take_agree expr expr' p' (pos + 1) (j + 1) hagree (by omega))
                  show (match findCharAux '\n' (expr'.drop (pos + 1)) with
                      | some j2 =>
                        mainLoop expr' (f + d) (pos + 1 + j2 + 2) (pos + 1 + j2 + 2)
                          arr2 lt pc
                      | none => mainLoop expr' (f + d) start expr'.length arr2 lt pc) =
                      .ok (arr', p', pc')
                  rw [hfp']
                  exact ih _ _ _ _ _ _ _ _ _ _ h' hpc hagree
            · rw [if_neg (by simp), if_neg (fun hco => hB2 hco.2),
                if_neg (fun hco => hB3 hco.2), if_neg (by decide), if_neg (by decide),
                if_neg (by decide)] at h
              have hp1 : pos + 1 < p' := by
                obtain ⟨hm, -⟩ := mainLoop_MB expr f _ _ _ _ _ _ _ _ h
                rcases hm with ⟨-, hq, -⟩ | hq
                · omega
                · exact hq
              have hnext : expr'.get? (pos + 1) = expr.get? (pos + 1) :=
                get_agree_of_lt expr expr' p' (pos + 1) hagree hp1
              rw [if_neg (by simp), if_neg (fun hco => hB2 (hnext ▸ hco.2)),
                if_neg (fun hco => hB3 (hnext ▸ hco.2)), if_neg (by decide),
                if_neg (by decide), if_neg (by decide)]
              exact ih _ _ _ _ _ _ _ _ _ _ h hpc hagree
        · by_cases hC : c = ','
          · subst hC
            rw [if_neg (by simp), if_neg (by simp), if_neg (by simp), if_pos rfl] at h
            cases haw : addWord expr start arr pos with
            | error e => rw [haw] at h; cases h
            | ok p =>
              obtain ⟨arr2, b⟩ := p
              rw [haw] at h
              have h' : (match ensureTokenExists (pos + 1) arr2 lt with
                  | .error err => .error err
                  | .ok lt2 => mainLoop expr f (pos + 1) (pos + 1) arr2 lt2 pc) =
                  Except.ok (arr', p', pc') := h
              cases hens : ensureTokenExists (pos + 1) arr2 lt with
              | error e => rw [hens] at h'; cases h'
              | ok lt2 =>
                rw [hens] at h'
                rw [if_neg (by simp), if_neg (by simp), if_neg (by simp), if_pos rfl]
                rw [addWord_congr expr expr' start arr pos hsl, haw]
                show (match ensureTokenExists (pos + 1) arr2 lt with
                    | .error err => .error err
                    | .ok lt2 => mainLoop expr' (f + d) (pos + 1) (pos + 1) arr2 lt2 pc) =
                    Except.ok (arr', p', pc')
                rw [hens]
                exact ih _ _ _ _ _ _ _ _ _ _ h' hpc hagree
          · by_cases hD : c = '('
            · subst hD
              rw [if_neg (by simp), if_neg (by simp), if_neg (by simp),
                if_neg (by decide), if_pos rfl] at h
              rw [if_neg (by simp), if_neg (by simp), if_neg (by simp),
                if_neg (by decide), if_pos rfl]
              by_cases h6 : pos ≤ start
              · rw [if_pos h6] at h; cases h
              · rw [if_neg h6] at h
                rw [if_neg h6, hsl]
                by_cases h7 : (tokenWithoutSpaces (jsSlice expr start pos)).2 = []
                · rw [if_pos h7] at h; cases h
                · rw [if_neg h7] at h
                  rw [if_neg h7]
                  by_cases h8 : ((tokenWithoutSpaces (jsSlice expr start pos)).2.any
                      isJsSpace) = true
                  · rw [if_pos h8] at h; cases h
                  · rw [if_neg h8] at h
                    rw [if_neg h8]
                    cases hin : mainLoop expr f (pos + 1) (pos + 1) [] (-1) pc with
                    | error e => rw [hin] at h; cases h
                    | ok q =>
                      obtain ⟨params, p1, pc1⟩ := q
                      rw [hin] at h
                      have h' : (match params.getLast? with
                          | none => Except.error ParseErr.emptyParamsAccess
                          | some lastParam =>
                            mainLoop expr f p1 p1
                              (arr ++ [AstNode.func
                                (tokenWithoutSpaces (jsSlice expr start pos)).2 params
                                (start + (tokenWithoutSpaces (jsSlice expr start pos)).1)
                                (lastParam.endPos + 1)
                                (jsSlice expr
                                  (start +
                                    (tokenWithoutSpaces (jsSlice expr start pos)).1)
                                  (lastParam.endPos + 1))])
                              lt (pc1 + 1)) = Except.ok (arr', p', pc') := h
                      cases hlast : params.getLast? with
                      | none => rw [hlast] at h'; cases h'
                      | some lastParam =>
                        rw [hlast] at h'
                        obtain ⟨hm1, hb1⟩ := mainLoop_MB expr f _ _ _ _ _ _ _ _ hin
                        obtain ⟨hm2, hb2⟩ := mainLoop_MB expr f _ _ _ _ _ _ _ _ h'
                        have hpc1 : pc1 < pc := by omega
                        have hp1p : p1 ≤ p' := by
                          rcases hm2 with ⟨hq, -, -⟩ | hq <;> omega
                        have hagree1 : expr'.take p1 = expr.take p1 :=
                          take_agree_of_le expr expr' p' p1 hagree hp1p
                        have hin' := ih _ _ _ _ _ _ _ _ expr' d hin hpc1 hagree1
                        rw [hin']
                        have hpe : lastParam.endPos ≤ p1 - 1 :=
                          mainLoop_endPos expr f _ _ _ _ _ _ _ _ hin hpc1
                            (by intro nd hnd; cases hnd) lastParam
                            (List.mem_of_mem_getLast? hlast)
                        have hpe1 : lastParam.endPos + 1 ≤ p' := by
                          have hp1pos : pos + 1 ≤ p1 := by
                            rcases hm1 with ⟨hq, -, -⟩ | hq <;> omega
                          omega
                        have hslc : jsSlice expr'
                            (start + (tokenWithoutSpaces (jsSlice expr start pos)).1)
                            (lastParam.endPos + 1) =
                            jsSlice expr
                            (start + (tokenWithoutSpaces (jsSlice expr start pos)).1)
                            (lastParam.endPos + 1) :=
                          jsSlice_agree expr expr' p' _ _ hagree hpe1
                        show (match params.getLast? with
                            | none => Except.error ParseErr.emptyParamsAccess
                            | some lastParam2 =>
                              mainLoop expr' (f + d) p1 p1
                                (arr ++ [AstNode.func
                                  (tokenWithoutSpaces (jsSlice expr start pos)).2 params
                                  (start +
                                    (tokenWithoutSpaces (jsSlice expr start pos)).1)
                                  (lastParam2.endPos + 1)
                                  (jsSlice expr'
                                    (start +
                                      (tokenWithoutSpaces (jsSlice expr start pos)).1)
                                    (lastParam2.endPos + 1))])
                                lt (pc1 + 1)) = Except.ok (arr', p', pc')
                        rw [hlast]
                        show mainLoop expr' (f + d) p1 p1
                            (arr ++ [AstNode.func
                              (tokenWithoutSpaces (jsSlice expr start pos)).2 params
                              (start + (tokenWithoutSpaces (jsSlice expr start pos)).1)
                              (lastParam.endPos + 1)
                              (jsSlice expr'
                                (start + (tokenWithoutSpaces (jsSlice expr start pos)).1)
                                (lastParam.endPos + 1))])
                            lt (pc1 + 1) = Except.ok (arr', p', pc')
                        rw [hslc]
                        exact ih _ _ _ _ _ _ _ _ _ _ h' (by omega) hagree
            · by_cases hE : c = ')'
              · subst hE
                rw [if_neg (by simp), if_neg (by simp), if_neg (by simp),
                  if_neg (by decide), if_neg (by decide), if_pos rfl] at h
                rw [if_neg (by simp), if_neg (by simp), if_neg (by simp),
                  if_neg (by decide), if_neg (by decide), if_pos rfl]
                cases haw : addWord expr start arr pos with
                | error e => rw [haw] at h; cases h
                | ok p =>
                  obtain ⟨arr2, b⟩ := p
                  rw [haw] at h
                  rw [addWord_congr expr expr' start arr pos hsl, haw]
                  exact h
              · rw [if_neg (by simp [hA]), if_neg (by simp [hB]), if_neg (by simp [hB]),
                  if_neg hC, if_neg hD, if_neg hE] at h
                rw [if_neg (by simp [hA]), if_neg (by simp [hB]), if_neg (by simp [hB]),
                  if_neg hC, if_neg hD, if_neg hE]
                exact ih _ _ _ _ _ _ _ _ _ _ h hpc hagree

end Keymapc

namespace Keymapc

/-- A passed token-existence check means the list is non-empty. -/
theorem ensure_ok_ne (pos : Nat) (arr : List AstNode) (lt lt2 : Int)
    (h : ensureTokenExists pos arr lt = .ok lt2) : arr ≠ [] := by
  rw [ensureTokenExists] at h
  by_cases hc : lt = (arr.length : Int) ∨ arr.length = 0
  · rw [if_pos hc] at h; cases h
  · intro he
    subst he
    exact hc (Or.inr rfl)

/-- A run that decrements the depth counter returns right after a closing
parenthesis and with at least one accumulated node. -/
theorem mainLoop_close (expr : List Char) (fuel : Nat) :
    ∀ (start pos : Nat) (arr : List AstNode) (lt pc : Int)
      (arr' : List AstNode) (p' : Nat) (pc' : Int),
    mainLoop expr fuel start pos arr lt pc = .ok (arr', p', pc') →
    pc' < pc →
    arr' ≠ [] ∧ 1 ≤ p' ∧ expr.get? (p' - 1) = some ')' := by
  induction fuel with
  | zero =>
    intro start pos arr lt pc arr' p' pc' h hpc
    cases hget : expr.get? pos with
    | none =>
      rw [mainLoop_at_end expr 0 start pos arr lt pc (List.get?_eq_none.mp hget)] at h
      injection h with h1
      injection h1 with ha h2
      injection h2 with hp hc
      omega
    | some c =>
      rw [mainLoop.eq_def, hget] at h
      cases h
  | succ f ih =>
    intro start pos arr lt pc arr' p' pc' h hpc
    cases hget : expr.get? pos with
    | none =>
      rw [mainLoop_at_end expr (f + 1) start pos arr lt pc
        (List.get?_eq_none.mp hget)] at h
      injection h with h1
      injection h1 with ha h2
      injection h2 with hp hc
      omega
    | some c =>
      rw [mainLoop_step expr c f start pos arr lt pc hget] at h
      simp only [mainBody] at h
      by_cases h1 : c = '\\' ∧ expr.get? (pos + 1) = some '\n'
      · rw [if_pos h1] at h
        exact ih _ _ _ _ _ _ _ _ h hpc
      · rw [if_neg h1] at h
        by_cases h2 : c = '/' ∧ expr.get? (pos + 1) = some '*'
        · rw [if_pos h2] at h
          cases haw : addWord expr start arr pos with
          | error e => rw [haw] at h; cases h
          | ok p =>
            obtain ⟨arr2, b⟩ := p
            rw [haw] at h
            have h' : (match findPairAux '*' '/' (expr.drop (pos + 1)) with
                | some j =>
                  mainLoop expr f (pos + 1 + j + 2) (pos + 1 + j + 2) arr2 lt pc
                | none => mainLoop expr f start expr.length arr2 lt pc) =
                .ok (arr', p', pc') := h
            cases hfp : findPairAux '*' '/' (expr.drop (pos + 1)) with
            | some j =>
              rw [hfp] at h'
              exact ih _ _ _ _ _ _ _ _ h' hpc
            | none =>
              rw [hfp] at h'
              exact ih _ _ _ _ _ _ _ _ h' hpc
        · rw [if_neg h2] at h
          by_cases h3 : c = '/' ∧ expr.get? (pos + 1) = some '/'
          · rw [if_pos h3] at h
            cases haw : addWord expr start arr pos with
            | error e => rw [haw] at h; cases h
            | ok p =>
              obtain ⟨arr2, b⟩ := p
              rw [haw] at h
              have h' : (match findCharAux '\n' (expr.drop (pos + 1)) with
                  | some j =>
                    mainLoop expr f (pos + 1 + j + 2) (pos + 1 + j + 2) arr2 lt pc
                  | none => mainLoop expr f start expr.length arr2 lt pc) =
                  .ok (arr', p', pc') := h
              cases hfp : findCharAux '\n' (expr.drop (pos + 1)) with
              | some j =>
                rw [hfp] at h'
                exact ih _ _ _ _ _ _ _ _ h' hpc
              | none =>
                rw [hfp] at h'
                exact ih _ _ _ _ _ _ _ _ h' hpc
          · rw [if_neg h3] at h
            by_cases h4 : c = ','
            · rw [if_pos h4] at h
              cases haw : addWord expr start arr pos with
              | error e => rw [haw] at h; cases h
              | ok p =>
                obtain ⟨arr2, b⟩ := p
                rw [haw] at h
                have h' : (match ensureTokenExists (pos + 1) arr2 lt with
                    | .error err => .error err
                    | .ok lt2 => mainLoop expr f (pos + 1) (pos + 1) arr2 lt2 pc) =
                    Except.ok (arr', p', pc') := h
                cases hens : ensureTokenExists (pos + 1) arr2 lt with
                | error e => rw [hens] at h'; cases h'
                | ok lt2 =>
                  rw [hens] at h'
                  exact ih _ _ _ _ _ _ _ _ h' hpc
            · rw [if_neg h4] at h
              by_cases h5 : c = '('
              · rw [if_pos h5] at h
                by_cases h6 : pos ≤ start
                · rw [if_pos h6] at h; cases h
                · rw [if_neg h6] at h
                  by_cases h7 : (tokenWithoutSpaces (jsSlice expr start pos)).2 = []
                  · rw [if_pos h7] at h; cases h
                  · rw [if_neg h7] at h
                    by_cases h8 : ((tokenWithoutSpaces (jsSlice expr start pos)).2.any
                        isJsSpace) = true
                    · rw [if_pos h8] at h; cases h
                    · rw [if_neg h8] at h
                      cases hin : mainLoop expr f (pos + 1) (pos + 1) [] (-1) pc with
                      | error e => rw [hin] at h; cases h
                      | ok q =>
                        obtain ⟨params, p1, pc1⟩ := q
                        rw [hin] at h
                        have h' : (match params.getLast? with
                            | none => Except.error ParseErr.emptyParamsAccess
                            | some lastParam =>
                              mainLoop expr f p1 p1
                                (arr ++ [AstNode.func
                                  (tokenWithoutSpaces (jsSlice expr start pos)).2 params
                                  (start + (tokenWithoutSpaces (jsSlice expr start pos)).1)
                                  (lastParam.endPos + 1)
                                  (jsSlice expr
                                    (start +
                                      (tokenWithoutSpaces (jsSlice expr start pos)).1)
                                    (lastParam.endPos + 1))])
                                lt (pc1 + 1)) = Except.ok (arr', p', pc') := h
                        cases hlast : params.getLast? with
                        | none => rw [hlast] at h'; cases h'
                        | some lastParam =>
                          rw [hlast] at h'
                          obtain ⟨-, hb1⟩ := mainLoop_MB expr f _ _ _ _ _ _ _ _ hin
                          exact ih _ _ _ _ _ _ _ _ h' (by omega)
              · rw [if_neg h5] at h
                by_cases h6 : c = ')'
                · rw [if_pos h6] at h
                  cases haw : addWord expr start arr pos with
                  | error e => rw [haw] at h; cases h
                  | ok p =>
                    obtain ⟨arr2, b⟩ := p
                    rw [haw] at h
                    have h' : (match ensureTokenExists (pos + 1) arr2 lt with
                        | .error err => .error err
                        | .ok _ => Except.ok (arr2, pos + 1, pc - 1)) =
                        Except.ok (arr', p', pc') := h
                    cases hens : ensureTokenExists (pos + 1) arr2 lt with
                    | error e => rw [hens] at h'; cases h'
                    | ok lt2 =>
                      rw [hens] at h'
                      injection h' with hq
                      injection hq with ha hq2
                      injection hq2 with hq3 hq4
                      subst ha
                      subst h6
                      refine ⟨ensure_ok_ne (pos + 1) arr2 lt lt2 hens, by omega, ?_⟩
                      rw [← hq3]
                      exact hget
                · rw [if_neg h6] at h
                  exact ih _ _ _ _ _ _ _ _ h hpc

end Keymapc


namespace Keymapc

/-- Surplus fuel does not change a successful scan. -/
theorem scan_fuel_mono (expr : List Char) (fuel : Nat) :
    ∀ (pos : Nat) (acc : List (List AstNode)) (r : List (List AstNode) × Nat) (d : Nat),
    scanKeymaps expr fuel pos acc = .ok r →
    scanKeymaps expr (fuel + d) pos acc = .ok r := by
  induction fuel with
  | zero =>
    intro pos acc r d h
    rw [scanKeymaps.eq_def] at h
    rw [scanKeymaps.eq_def]
    cases hidx : indexOfFromAux keymapMarker (expr.drop pos) with
    | none => rw [hidx] at h; exact h
    | some j =>
      rw [hidx] at h
      have h' : (Except.error ParseErr.outOfFuel :
          Except ParseErr (List (List AstNode) × Nat)) = Except.ok r := h
      cases h'
  | succ f ih =>
    intro pos acc r d h
    have hfd : f + 1 + d = (f + d) + 1 := by omega
    rw [hfd]
    rw [scanKeymaps.eq_def] at h
    rw [scanKeymaps.eq_def]
    cases hidx : indexOfFromAux keymapMarker (expr.drop pos) with
    | none => rw [hidx] at h; exact h
    | some j =>
      rw [hidx] at h
      have h' : (match mainLoop expr (expr.length + 1) (pos + j + 7) (pos + j + 7) [] (-1) 1 with
          | Except.error err => Except.error err
          | Except.ok (keymap, pos2, pcount2) =>
            if pcount2 ≠ 0 then Except.error ParseErr.unbalancedParens
            else scanKeymaps expr f pos2 (acc ++ [keymap])) = Except.ok r := h
      show (match mainLoop expr (expr.length + 1) (pos + j + 7) (pos + j + 7) [] (-1) 1 with
          | Except.error err => Except.error err
          | Except.ok (keymap, pos2, pcount2) =>
            if pcount2 ≠ 0 then Except.error ParseErr.unbalancedParens
            else scanKeymaps expr (f + d) pos2 (acc ++ [keymap])) = Except.ok r
      cases hm : mainLoop expr (expr.length + 1) (pos + j + 7) (pos + j + 7) [] (-1) 1 with
      | error e =>
        rw [hm] at h'
        cases h'
      | ok q =>
        obtain ⟨keymap, pos2, pcount2⟩ := q
        rw [hm] at h'
        have h'' : (if pcount2 ≠ 0 then (Except.error ParseErr.unbalancedParens :
            Except ParseErr (List (List AstNode) × Nat))
            else scanKeymaps expr f pos2 (acc ++ [keymap])) = Except.ok r := h'
        show (if pcount2 ≠ 0 then (Except.error ParseErr.unbalancedParens :
            Except ParseErr (List (List AstNode) × Nat))
            else scanKeymaps expr (f + d) pos2 (acc ++ [keymap])) = Except.ok r
        by_cases hz : pcount2 ≠ 0
        · rw [if_pos hz] at h''; cases h''
        · rw [if_neg hz] at h''
          rw [if_neg hz]
          exact ih pos2 (acc ++ [keymap]) r d h''

/-- A successful scan only moves the cursor forward, and no marker occurs
at or after the final cursor. -/
theorem scan_end_facts (expr : List Char) (fuel : Nat) :
    ∀ (pos : Nat) (acc ks : List (List AstNode)) (e : Nat),
    scanKeymaps expr fuel pos acc = .ok (ks, e) →
    pos ≤ e ∧ indexOfFromAux keymapMarker (expr.drop e) = none := by
  induction fuel with
  | zero =>
    intro pos acc ks e h
    rw [scanKeymaps.eq_def] at h
    cases hidx : indexOfFromAux keymapMarker (expr.drop pos) with
    | none =>
      rw [hidx] at h
      have h' : (Except.ok (acc, pos) :
          Except ParseErr (List (List AstNode) × Nat)) = Except.ok (ks, e) := h
      injection h' with h1
      injection h1 with h2 h3
      subst h3
      exact ⟨le_refl _, hidx⟩
    | some j =>
      rw [hidx] at h
      have h' : (Except.error ParseErr.outOfFuel :
          Except ParseErr (List (List AstNode) × Nat)) = Except.ok (ks, e) := h
      cases h'
  | succ f ih =>
    intro pos acc ks e h
    rw [scanKeymaps.eq_def] at h
    cases hidx : indexOfFromAux keymapMarker (expr.drop pos) with
    | none =>
      rw [hidx] at h
      have h' : (Except.ok (acc, pos) :
          Except ParseErr (List (List AstNode) × Nat)) = Except.ok (ks, e) := h
      injection h' with h1
      injection h1 with h2 h3
      subst h3
      exact ⟨le_refl _, hidx⟩
    | some j =>
      rw [hidx] at h
      have h' : (match mainLoop expr (expr.length + 1) (pos + j + 7) (pos + j + 7) [] (-1) 1 with
          | Except.error err => Except.error err
          | Except.ok (keymap, pos2, pcount2) =>
            if pcount2 ≠ 0 then Except.error ParseErr.unbalancedParens
            else scanKeymaps expr f pos2 (acc ++ [keymap])) = Except.ok (ks, e) := h
      cases hm : mainLoop expr (expr.length + 1) (pos + j + 7) (pos + j + 7) [] (-1) 1 with
      | error er => rw [hm] at h'; cases h'
      | ok q =>
        obtain ⟨keymap, pos2, pcount2⟩ := q
        rw [hm] at h'
        have h'' : (if pcount2 ≠ 0 then (Except.error ParseErr.unbalancedParens :
            Except ParseErr (List (List AstNode) × Nat))
            else scanKeymaps expr f pos2 (acc ++ [keymap])) = Except.ok (ks, e) := h'
        by_cases hz : pcount2 ≠ 0
        · rw [if_pos hz] at h''; cases h''
        · rw [if_neg hz] at h''
          obtain ⟨hle, hnone⟩ := ih pos2 (acc ++ [keymap]) ks e h''
          obtain ⟨hm1, -⟩ := mainLoop_MB expr (expr.length + 1) _ _ _ _ _ _ _ _ hm
          have : pos + j + 7 ≤ pos2 := by
            rcases hm1 with ⟨hq, -, -⟩ | hq <;> omega
          exact ⟨by omega, hnone⟩

/-- Decimal digits lie between `'0'` and `'9'`. -/
theorem natDigitsAux_charset (fuel : Nat) :
    ∀ (n : Nat) (acc : List Char),
    (∀ c ∈ acc, 48 ≤ c.toNat ∧ c.toNat ≤ 57) →
    ∀ c ∈ natDigitsAux fuel n acc, 48 ≤ c.toNat ∧ c.toNat ≤ 57 := by
  induction fuel with
  | zero => intro n acc hacc; exact hacc
  | succ f ih =>
    intro n acc hacc c hc
    rw [natDigitsAux] at hc
    have hd : 48 ≤ (Char.ofNat (48 + n % 10)).toNat ∧
        (Char.ofNat (48 + n % 10)).toNat ≤ 57 := by
      have hlt : n % 10 < 10 := Nat.mod_lt n (by omega)
      have hval : (Char.ofNat (48 + n % 10)).toNat = 48 + n % 10 := by
        have h10 : n % 10 = 0 ∨ n % 10 = 1 ∨ n % 10 = 2 ∨ n % 10 = 3 ∨ n % 10 = 4 ∨
            n % 10 = 5 ∨ n % 10 = 6 ∨ n % 10 = 7 ∨ n % 10 = 8 ∨ n % 10 = 9 := by omega
        rcases h10 with h|h|h|h|h|h|h|h|h|h <;> rw [h] <;> decide
      omega
    by_cases hn : n < 10
    · rw [if_pos hn] at hc
      rcases List.mem_cons.mp hc with rfl | hmem
      · exact hd
      · exact hacc c hmem
    · rw [if_neg hn] at hc
      refine ih (n / 10) _ ?_ c hc
      intro c2 hc2
      rcases List.mem_cons.mp hc2 with rfl | hmem
      · exact hd
      · exact hacc c2 hmem

end Keymapc

namespace Keymapc

/-- A prefix none of whose characters matches the pattern's head shifts the
found index by its length. -/
theorem indexOfFromAux_skip (c0 : Char) (pat : List Char)
    (hpat : pat.head? = some c0) :
    ∀ (pre l : List Char) (j : Nat), (∀ c ∈ pre, c ≠ c0) →
    indexOfFromAux pat l = some j →
    indexOfFromAux pat (pre ++ l) = some (pre.length + j) := by
  intro pre
  induction pre with
  | nil =>
    intro l j _ h
    simpa using h
  | cons c pre' ih =>
    intro l j hpre h
    have hcne : c ≠ c0 := hpre c (by simp)
    rw [List.cons_append, indexOfFromAux]
    rw [if_neg ?hc]
    case hc =>
      intro hisp
      have hp : pat <+: c :: (pre' ++ l) := List.isPrefixOf_iff_prefix.mp hisp
      obtain ⟨t, ht⟩ := hp
      cases hp2 : pat with
      | nil => rw [hp2] at hpat; cases hpat
      | cons p0 prest =>
        rw [hp2] at hpat ht
        injection hpat with hp0
        rw [List.cons_append] at ht
        injection ht with h1 h2
        exact hcne (by rw [← h1, hp0])
    rw [ih l j (fun c2 hc2 => hpre c2 (by simp [hc2])) h]
    simp [Option.map_some']
    omega

/-- `empties.join(",")` coincides with the segment text of the
placeholder arguments. -/
theorem joinComma_map_eq_argsStr {α : Type} (w : List Char) (l : List α) :
    joinComma (l.map (fun _ => w)) = argsStr (l.map (fun _ => Seg.mk [] w [])) := by
  induction l with
  | nil => rfl
  | cons x t ih =>
    cases t with
    | nil =>
      show joinComma [w] = argsStr [Seg.mk [] w []]
      show w = Seg.text (Seg.mk [] w [])
      simp [Seg.text]
    | cons y t2 =>
      show joinComma (w :: w :: (t2.map (fun _ => w))) =
        argsStr (Seg.mk [] w [] :: Seg.mk [] w [] :: (t2.map (fun _ => Seg.mk [] w [])))
      rw [joinComma, argsStr]
      rw [show (Seg.mk [] w []).text = w from by simp [Seg.text]]
      simp only [List.map_cons] at ih
      rw [← ih]

/-- Every node produced for the placeholder arguments carries the
placeholder word as its content. -/
theorem segNodes_placeholder_content {α : Type} (w : List Char) (l : List α) :
    ∀ (base : Nat) (node : AstNode),
    node ∈ segNodes base (l.map (fun _ => Seg.mk [] w [])) →
    node.content = w := by
  induction l with
  | nil => intro base node hn; cases hn
  | cons x t ih =>
    intro base node hn
    rw [List.map_cons, segNodes] at hn
    rcases List.mem_cons.mp hn with rfl | hmem
    · rfl
    · exact ih _ node hmem

/-- The placeholder segments are valid. -/
theorem placeholder_seg_valid {α : Type} (l : List α) :
    ∀ s ∈ l.map (fun _ => Seg.mk [] "KC_TRANSPARENT".data []), s.valid := by
  intro s hs
  rcases List.mem_map.mp hs with ⟨x, -, rfl⟩
  refine ⟨by simp, by simp, by decide, ?_⟩
  intro c hc
  fin_cases hc <;> exact ⟨by decide, by decide⟩

/-- A successful scan appends only non-empty layers, and when it appends at
least one layer the final cursor sits right after a closing parenthesis. -/
theorem scan_ok_facts (expr : List Char) (fuel : Nat) :
    ∀ (pos : Nat) (acc ks : List (List AstNode)) (e : Nat),
    scanKeymaps expr fuel pos acc = .ok (ks, e) →
    (∃ pre, ks = acc ++ pre ∧ ∀ l ∈ pre, l ≠ []) ∧
    ((ks = acc ∧ e = pos) ∨ (1 ≤ e ∧ expr.get? (e - 1) = some ')')) := by
  induction fuel with
  | zero =>
    intro pos acc ks e h
    rw [scanKeymaps.eq_def] at h
    cases hidx : indexOfFromAux keymapMarker (expr.drop pos) with
    | none =>
      rw [hidx] at h
      have h' : (Except.ok (acc, pos) :
          Except ParseErr (List (List AstNode) × Nat)) = Except.ok (ks, e) := h
      injection h' with h1
      injection h1 with h2 h3
      subst h3
      exact ⟨⟨[], by simp [h2], by simp⟩, Or.inl ⟨h2.symm, rfl⟩⟩
    | some j =>
      rw [hidx] at h
      have h' : (Except.error ParseErr.outOfFuel :
          Except ParseErr (List (List AstNode) × Nat)) = Except.ok (ks, e) := h
      cases h'
  | succ f ih =>
    intro pos acc ks e h
    rw [scanKeymaps.eq_def] at h
    cases hidx : indexOfFromAux keymapMarker (expr.drop pos) with
    | none =>
      rw [hidx] at h
      have h' : (Except.ok (acc, pos) :
          Except ParseErr (List (List AstNode) × Nat)) = Except.ok (ks, e) := h
      injection h' with h1
      injection h1 with h2 h3
      subst h3
      exact ⟨⟨[], by simp [h2], by simp⟩, Or.inl ⟨h2.symm, rfl⟩⟩
    | some j =>
      rw [hidx] at h
      have h' : (match mainLoop expr (expr.length + 1) (pos + j + 7) (pos + j + 7) [] (-1) 1 with
          | Except.error err => Except.error err
          | Except.ok (keymap, pos2, pcount2) =>
            if pcount2 ≠ 0 then Except.error ParseErr.unbalancedParens
            else scanKeymaps expr f pos2 (acc ++ [keymap])) = Except.ok (ks, e) := h
      cases hm : mainLoop expr (expr.length + 1) (pos + j + 7) (pos + j + 7) [] (-1) 1 with
      | error er => rw [hm] at h'; cases h'
      | ok q =>
        obtain ⟨keymap, pos2, pcount2⟩ := q
        rw [hm] at h'
        have h'' : (if pcount2 ≠ 0 then (Except.error ParseErr.unbalancedParens :
            Except ParseErr (List (List AstNode) × Nat))
            else scanKeymaps expr f pos2 (acc ++ [keymap])) = Except.ok (ks, e) := h'
        by_cases hz : pcount2 ≠ 0
        · rw [if_pos hz] at h''; cases h''
        · rw [if_neg hz] at h''
          have hz0 : pcount2 = 0 := not_not.mp hz
          subst hz0
          obtain ⟨hne, hp1, hclose⟩ :=
            mainLoop_close expr (expr.length + 1) _ _ _ _ _ _ _ _ hm (by decide)
          obtain ⟨⟨pre2, hks, hpre2⟩, hdisj⟩ := ih pos2 (acc ++ [keymap]) ks e h''
          refine ⟨⟨keymap :: pre2, by rw [hks]; simp, ?_⟩, ?_⟩
          · intro l hl
            rcases List.mem_cons.mp hl with rfl | hl2
            · exact hne
            · exact hpre2 l hl2
          · rcases hdisj with ⟨hksa, hepos2⟩ | hr
            · subst hepos2
              exact Or.inr ⟨hp1, hclose⟩
            · exact Or.inr hr

end Keymapc

namespace Keymapc

/-- Scanning from the insertion cursor picks up exactly the synthesized
invocation and stops: the layer-index annotation contains no marker
character, the marker of the synthesized invocation is found right after
it, its arguments parse as one layer, and no further marker follows. -/
theorem scan_last_step (text digits : List Char) (segs : List Seg) (endPos : Nat)
    (hle : endPos ≤ text.length)
    (hnone : indexOfFromAux keymapMarker (text.drop endPos) = none)
    (hdig : ∀ c ∈ digits, 48 ≤ c.toNat ∧ c.toNat ≤ 57)
    (hsegs : segs ≠ []) (hv : ∀ s ∈ segs, s.valid) :
    ∀ (f : Nat) (acc2 : List (List AstNode)),
    scanKeymaps
      (text.take endPos ++ ",\n [".data ++ digits ++ "] = KEYMAP(".data ++
        argsStr segs ++ ")".data ++ text.drop endPos)
      (f + 1) endPos acc2 =
    .ok (acc2 ++ [segNodes (endPos + digits.length + 15) segs],
        endPos + digits.length + 15 + (argsStr segs).length + 1) := by
  intro f acc2
  have h4 : (",\n [".data : List Char).length = 4 := by decide
  have h44 : ("] = ".data : List Char).length = 4 := by decide
  have h11 : ("] = KEYMAP(".data : List Char).length = 11 := by decide
  have hmk : ("] = KEYMAP(".data : List Char) = "] = ".data ++ keymapMarker := by decide
  have hcp : ((")".data : List Char)) = [')'] := by decide
  have hlen : (text.take endPos).length = endPos := by
    rw [List.length_take]; omega
  set T := text.take endPos ++ ",\n [".data ++ digits ++ "] = KEYMAP(".data ++
      argsStr segs ++ ")".data ++ text.drop endPos with hTdef
  have hdropT : T.drop endPos =
      ",\n [".data ++ (digits ++ ("] = KEYMAP(".data ++
        (argsStr segs ++ ([')'] ++ text.drop endPos)))) := by
    have hsplit : T = text.take endPos ++ (",\n [".data ++ (digits ++ ("] = KEYMAP(".data ++
        (argsStr segs ++ ([')'] ++ text.drop endPos))))) := by
      rw [hTdef, hcp]
      simp [List.append_assoc]
    have hd := drop_at T (text.take endPos) _ hsplit
    rw [hlen] at hd
    exact hd
  have hpre0 : ∀ c ∈ (",\n [".data ++ (digits ++ "] = ".data) : List Char), c ≠ 'K' := by
    intro c hc
    rcases List.mem_append.mp hc with hc1 | hc2
    · intro he; rw [he] at hc1; revert hc1; decide
    · rcases List.mem_append.mp hc2 with hc3 | hc4
      · have hb := hdig c hc3
        intro he
        rw [he] at hb
        have h75 : ('K').toNat = 75 := by decide
        omega
      · intro he; rw [he] at hc4; revert hc4; decide
  have hidx : indexOfFromAux keymapMarker (T.drop endPos) = some (digits.length + 8) := by
    have hfound : indexOfFromAux keymapMarker
        (keymapMarker ++ (argsStr segs ++ ([')'] ++ text.drop endPos))) = some 0 :=
      indexOfFromAux_prefix keymapMarker _ _ (by decide) rfl
    have hskip := indexOfFromAux_skip 'K' keymapMarker (by decide)
      (",\n [".data ++ (digits ++ "] = ".data))
      (keymapMarker ++ (argsStr segs ++ ([')'] ++ text.drop endPos))) 0 hpre0 hfound
    rw [show ((",\n [".data ++ (digits ++ "] = ".data)) ++
        (keymapMarker ++ (argsStr segs ++ ([')'] ++ text.drop endPos)))) =
        ",\n [".data ++ (digits ++ (("] = ".data ++ keymapMarker) ++
          (argsStr segs ++ ([')'] ++ text.drop endPos)))) from by
      simp [List.append_assoc]] at hskip
    rw [show (",\n [".data ++ (digits ++ "] = ".data)).length + 0 = digits.length + 8 from by
      simp only [List.length_append, h4, h44]; omega] at hskip
    rw [hdropT, hmk]
    exact hskip
  have hexpr : T = (text.take endPos ++ (",\n [".data ++ (digits ++ "] = KEYMAP(".data))) ++
      argsStr segs ++ [')'] ++ text.drop endPos := by
    rw [hTdef, hcp]
    simp [List.append_assoc]
  have hA : (text.take endPos ++ (",\n [".data ++ (digits ++ "] = KEYMAP(".data))).length =
      endPos + digits.length + 15 := by
    simp only [List.length_append, h4, h11, hlen]; omega
  have hargsle : (argsStr segs).length ≤ T.length := by
    rw [hexpr]; simp only [List.length_append]; omega
  have hml := mainLoop_args segs T (text.drop endPos)
      (T.length - (argsStr segs).length)
      (text.take endPos ++ (",\n [".data ++ (digits ++ "] = KEYMAP(".data))) [] (-1) 1
      hsegs hv hexpr (by decide)
  rw [show T.length - (argsStr segs).length + ((argsStr segs).length + 1) = T.length + 1 from by
    omega] at hml
  rw [hA] at hml
  rw [show (1 : Int) - 1 = 0 from by decide] at hml
  rw [List.nil_append] at hml
  have hm2 : mainLoop T (T.length + 1) (endPos + (digits.length + 8) + 7)
      (endPos + (digits.length + 8) + 7) [] (-1) 1 =
      .ok (segNodes (endPos + digits.length + 15) segs,
        endPos + digits.length + 15 + (argsStr segs).length + 1, 0) := by
    rw [show endPos + (digits.length + 8) + 7 = endPos + digits.length + 15 from by omega]
    exact hml
  rw [scan_step_ok T f endPos (digits.length + 8) acc2 _ _ hidx hm2]
  have hdrop2 : T.drop (endPos + digits.length + 15 + (argsStr segs).length + 1) =
      text.drop endPos := by
    have hlen2 : (text.take endPos ++ (",\n [".data ++ (digits ++
        ("] = KEYMAP(".data ++ (argsStr segs ++ [')']))))).length =
        endPos + digits.length + 15 + (argsStr segs).length + 1 := by
      simp only [List.length_append, h4, h11, hlen, List.length_singleton]; omega
    rw [← hlen2]
    apply drop_at T _ _
    rw [hTdef, hcp]
    simp [List.append_assoc]
  exact scan_none T f _ (acc2 ++ [segNodes (endPos + digits.length + 15) segs])
    (by rw [hdrop2]; exact hnone)

/-- A run of the scan on `text` ending at the final cursor transfers to
the extended text `T`: the prefix up to the cursor is unchanged, so every
invocation is re-found and re-parsed identically, and at the cursor the
extended text supplies exactly one further layer. -/
theorem scan_transfer (text T : List Char) (endPos npos : Nat) (newLayer : List AstNode)
    (hpre : T.take endPos = text.take endPos)
    (hTge : text.length ≤ T.length)
    (hlast : ∀ (f : Nat) (acc2 : List (List AstNode)),
      scanKeymaps T (f + 1) endPos acc2 = .ok (acc2 ++ [newLayer], npos)) :
    ∀ (fuel : Nat) (pos : Nat) (acc ks : List (List AstNode)),
    scanKeymaps text fuel pos acc = .ok (ks, endPos) →
    pos ≤ endPos →
    scanKeymaps T (fuel + 1) pos acc = .ok (ks ++ [newLayer], npos) := by
  intro fuel
  induction fuel with
  | zero =>
    intro pos acc ks h hpos
    rw [scanKeymaps.eq_def] at h
    cases hidx : indexOfFromAux keymapMarker (text.drop pos) with
    | none =>
      rw [hidx] at h
      have h' : (Except.ok (acc, pos) :
          Except ParseErr (List (List AstNode) × Nat)) = Except.ok (ks, endPos) := h
      injection h' with h1
      injection h1 with h2 h3
      subst h2
      subst h3
      exact hlast 0 acc
    | some j =>
      rw [hidx] at h
      have h' : (Except.error ParseErr.outOfFuel :
          Except ParseErr (List (List AstNode) × Nat)) = Except.ok (ks, endPos) := h
      cases h'
  | succ f ih =>
    intro pos acc ks h hpos
    rw [scanKeymaps.eq_def] at h
    cases hidx : indexOfFromAux keymapMarker (text.drop pos) with
    | none =>
      rw [hidx] at h
      have h' : (Except.ok (acc, pos) :
          Except ParseErr (List (List AstNode) × Nat)) = Except.ok (ks, endPos) := h
      injection h' with h1
      injection h1 with h2 h3
      subst h2
      subst h3
      exact hlast (f + 1) acc
    | some j =>
      rw [hidx] at h
      have h' : (match mainLoop text (text.length + 1) (pos + j + 7) (pos + j + 7) [] (-1) 1 with
          | Except.error err => Except.error err
          | Except.ok (keymap, pos2, pcount2) =>
            if pcount2 ≠ 0 then Except.error ParseErr.unbalancedParens
            else scanKeymaps text f pos2 (acc ++ [keymap])) = Except.ok (ks, endPos) := h
      cases hm : mainLoop text (text.length + 1) (pos + j + 7) (pos + j + 7) [] (-1) 1 with
      | error er => rw [hm] at h'; cases h'
      | ok q =>
        obtain ⟨keymap, pos2, pcount2⟩ := q
        rw [hm] at h'
        have h'' : (if pcount2 ≠ 0 then (Except.error ParseErr.unbalancedParens :
            Except ParseErr (List (List AstNode) × Nat))
            else scanKeymaps text f pos2 (acc ++ [keymap])) = Except.ok (ks, endPos) := h'
        by_cases hz : pcount2 ≠ 0
        · rw [if_pos hz] at h''; cases h''
        · rw [if_neg hz] at h''
          have hz0 : pcount2 = 0 := not_not.mp hz
          subst hz0
          have hpos2 := (scan_end_facts text f pos2 (acc ++ [keymap]) ks endPos h'').1
          have h7 : keymapMarker.length = 7 := by decide
          have hag : (T.drop pos).take (j + keymapMarker.length) =
              (text.drop pos).take (j + keymapMarker.length) := by
            apply drop_take_agree text T endPos pos (j + keymapMarker.length) hpre
            rw [h7]
            obtain ⟨hd1, -⟩ := mainLoop_MB text (text.length + 1) _ _ _ _ _ _ _ _ hm
            have hlt : pos + j + 7 < pos2 := by
              rcases hd1 with ⟨-, hpc, -⟩ | h2
              · exact absurd hpc (by decide)
              · exact h2
            omega
          have hidx2 : indexOfFromAux keymapMarker (T.drop pos) = some j :=
            indexOfFromAux_agree keymapMarker (by decide) (text.drop pos) (T.drop pos) j
              hidx hag
          have hstab := mainLoop_stable text (text.length + 1) (pos + j + 7) (pos + j + 7)
            [] (-1) 1 keymap pos2 0 T (T.length + 1 - (text.length + 1)) hm (by decide)
            (take_agree_of_le text T endPos pos2 hpre hpos2)
          rw [show text.length + 1 + (T.length + 1 - (text.length + 1)) = T.length + 1 from by
            omega] at hstab
          rw [scan_step_ok T (f + 1) pos j acc keymap pos2 hidx2 hstab]
          exact ih pos2 (acc ++ [keymap]) ks h'' hpos2

end Keymapc

namespace Keymapc

/-- C7: for every text that the parse accepts as `n` Layers of `k` keys
each, `addLayerKeymaps` returns the text with a synthesized invocation
(comma, newline, layer-index annotation `n`, the marker applied to `k`
placeholder tokens `KC_TRANSPARENT` joined by commas) inserted at the
cursor position immediately after the last invocation's closing
parenthesis, leaving all preceding and following bytes untouched; and
parsing the returned text yields `n + 1` Layers, all of key count `k`,
the new last layer consisting entirely of the placeholder token. -/
theorem addLayer_appends_placeholder_layer (text : List Char)
    (ks : List (List AstNode)) (endPos : Nat)
    (h : tryParseKeymapsTextWithEnd text none = .ok (ks, endPos)) :
    text.get? (endPos - 1) = some ')' ∧
    addLayerKeymaps text =
      text.take endPos ++ ",\n [".data ++ natDigits ks.length ++ "] = KEYMAP(".data ++
        joinComma ((ks.headD []).map (fun _ => "KC_TRANSPARENT".data)) ++ ")".data ++
        text.drop endPos ∧
    ∃ newLayer : List AstNode,
      tryParseKeymapsText (addLayerKeymaps text) none = .ok (ks ++ [newLayer]) ∧
      (ks ++ [newLayer]).length = ks.length + 1 ∧
      newLayer.length = (ks.headD []).length ∧
      (∀ layer ∈ ks ++ [newLayer], layer.length = (ks.headD []).length) ∧
      ∀ node ∈ newLayer, node.content = "KC_TRANSPARENT".data := by
  obtain ⟨hscan, hge, hany, -⟩ := withEnd_ok_structure text none ks endPos h
  obtain ⟨-, hnone⟩ := scan_end_facts text (text.length + 1) 0 [] ks endPos hscan
  obtain ⟨⟨pre, hkspre, hprene⟩, hdisj⟩ :=
    scan_ok_facts text (text.length + 1) 0 [] ks endPos hscan
  simp only [List.nil_append] at hkspre
  have hksne : ks ≠ [] := by
    intro he
    rw [he] at hge
    simp at hge
  obtain ⟨kh, kt, hks⟩ := List.exists_cons_of_ne_nil hksne
  have hheadD : ks.headD [] = kh := by rw [hks]; rfl
  have hkhne : kh ≠ [] := by
    apply hprene
    rw [← hkspre, hks]
    simp
  have hclose : text.get? (endPos - 1) = some ')' ∧ 1 ≤ endPos := by
    rcases hdisj with ⟨hk0, -⟩ | ⟨h1, h2⟩
    · exact absurd hk0 hksne
    · exact ⟨h2, h1⟩
  have hle : endPos ≤ text.length := by
    obtain ⟨hlt, -⟩ := List.get?_eq_some.mp hclose.1
    omega
  have hlens : ∀ l ∈ ks, l.length = (ks.headD []).length := by
    intro l hl
    by_contra hne
    have hcontra : (ks.any (fun t => t.length ≠ (ks.headD []).length)) = true :=
      List.any_eq_true.mpr ⟨l, hl, by simpa using hne⟩
    rw [hcontra] at hany
    cases hany
  have hdigits : ∀ c ∈ natDigits ks.length, 48 ≤ c.toNat ∧ c.toNat ≤ 57 := by
    intro c hc
    rw [natDigits] at hc
    exact natDigitsAux_charset _ _ _ (by simp) c hc
  have hsegsne : (ks.headD []).map (fun _ => Seg.mk [] "KC_TRANSPARENT".data []) ≠ [] := by
    rw [hheadD]
    intro hcon
    rw [List.map_eq_nil] at hcon
    exact hkhne hcon
  have hlast0 := scan_last_step text (natDigits ks.length)
    ((ks.headD []).map (fun _ => Seg.mk [] "KC_TRANSPARENT".data [])) endPos
    hle hnone hdigits hsegsne (placeholder_seg_valid _)
  have harg := joinComma_map_eq_argsStr "KC_TRANSPARENT".data (ks.headD [])
  rw [← harg] at hlast0
  have hsplice : addLayerKeymaps text =
      text.take endPos ++ ",\n [".data ++ natDigits ks.length ++ "] = KEYMAP(".data ++
        joinComma ((ks.headD []).map (fun _ => "KC_TRANSPARENT".data)) ++ ")".data ++
        text.drop endPos := by
    unfold addLayerKeymaps
    rw [h]
  have hlen0 : (text.take endPos).length = endPos := by
    rw [List.length_take]
    omega
  have hassoc : text.take endPos ++ ",\n [".data ++ natDigits ks.length ++
      "] = KEYMAP(".data ++
      joinComma ((ks.headD []).map (fun _ => "KC_TRANSPARENT".data)) ++ ")".data ++
      text.drop endPos =
      text.take endPos ++ (",\n [".data ++ (natDigits ks.length ++ ("] = KEYMAP(".data ++
        (joinComma ((ks.headD []).map (fun _ => "KC_TRANSPARENT".data)) ++ (")".data ++
        text.drop endPos))))) := by
    simp [List.append_assoc]
  have hpre : (text.take endPos ++ ",\n [".data ++ natDigits ks.length ++
      "] = KEYMAP(".data ++
      joinComma ((ks.headD []).map (fun _ => "KC_TRANSPARENT".data)) ++ ")".data ++
      text.drop endPos).take endPos = text.take endPos := by
    rw [hassoc]
    exact List.take_left' hlen0
  have hTge2 : text.length + 1 ≤ (text.take endPos ++ ",\n [".data ++
      natDigits ks.length ++ "] = KEYMAP(".data ++
      joinComma ((ks.headD []).map (fun _ => "KC_TRANSPARENT".data)) ++ ")".data ++
      text.drop endPos).length := by
    have h4 : (",\n [".data : List Char).length = 4 := by decide
    have h11 : ("] = KEYMAP(".data : List Char).length = 11 := by decide
    have h1 : ((")".data : List Char)).length = 1 := by decide
    simp only [List.length_append, h4, h11, h1, hlen0, List.length_drop]
    omega
  have hT2 := scan_transfer text
    (text.take endPos ++ ",\n [".data ++ natDigits ks.length ++ "] = KEYMAP(".data ++
      joinComma ((ks.headD []).map (fun _ => "KC_TRANSPARENT".data)) ++ ")".data ++
      text.drop endPos)
    endPos
    (endPos + (natDigits ks.length).length + 15 +
      (joinComma ((ks.headD []).map (fun _ => "KC_TRANSPARENT".data))).length + 1)
    (segNodes (endPos + (natDigits ks.length).length + 15)
      ((ks.headD []).map (fun _ => Seg.mk [] "KC_TRANSPARENT".data [])))
    hpre (by omega) hlast0 (text.length + 1) 0 [] ks hscan (by omega)
  have hscanT := scan_fuel_mono
    (text.take endPos ++ ",\n [".data ++ natDigits ks.length ++ "] = KEYMAP(".data ++
      joinComma ((ks.headD []).map (fun _ => "KC_TRANSPARENT".data)) ++ ")".data ++
      text.drop endPos)
    (text.length + 2) 0 []
    (ks ++ [segNodes (endPos + (natDigits ks.length).length + 15)
        ((ks.headD []).map (fun _ => Seg.mk [] "KC_TRANSPARENT".data []))],
      endPos + (natDigits ks.length).length + 15 +
        (joinComma ((ks.headD []).map (fun _ => "KC_TRANSPARENT".data))).length + 1)
    ((text.take endPos ++ ",\n [".data ++ natDigits ks.length ++ "] = KEYMAP(".data ++
      joinComma ((ks.headD []).map (fun _ => "KC_TRANSPARENT".data)) ++ ")".data ++
      text.drop endPos).length + 1 - (text.length + 2))
    hT2
  rw [show text.length + 2 +
      ((text.take endPos ++ ",\n [".data ++ natDigits ks.length ++ "] = KEYMAP(".data ++
        joinComma ((ks.headD []).map (fun _ => "KC_TRANSPARENT".data)) ++ ")".data ++
        text.drop endPos).length + 1 - (text.length + 2)) =
      (text.take endPos ++ ",\n [".data ++ natDigits ks.length ++ "] = KEYMAP(".data ++
        joinComma ((ks.headD []).map (fun _ => "KC_TRANSPARENT".data)) ++ ")".data ++
        text.drop endPos).length + 1 from by omega] at hscanT
  have hnlen : (segNodes (endPos + (natDigits ks.length).length + 15)
      ((ks.headD []).map (fun _ => Seg.mk [] "KC_TRANSPARENT".data []))).length =
      (ks.headD []).length := by
    rw [segNodes_length, List.length_map]
  have hall : ∀ layer ∈ ks ++ [segNodes (endPos + (natDigits ks.length).length + 15)
      ((ks.headD []).map (fun _ => Seg.mk [] "KC_TRANSPARENT".data []))],
      layer.length = (ks.headD []).length := by
    intro l hl
    rcases List.mem_append.mp hl with hl1 | hl2
    · exact hlens l hl1
    · rw [List.mem_singleton] at hl2
      subst hl2
      exact hnlen
  have hhead2 : ((ks ++ [segNodes (endPos + (natDigits ks.length).length + 15)
      ((ks.headD []).map (fun _ => Seg.mk [] "KC_TRANSPARENT".data []))]).headD []) =
      ks.headD [] := by
    rw [hks]
    rfl
  have hany2 : ((ks ++ [segNodes (endPos + (natDigits ks.length).length + 15)
      ((ks.headD []).map (fun _ => Seg.mk [] "KC_TRANSPARENT".data []))]).any
      (fun t => t.length ≠ ((ks ++ [segNodes (endPos + (natDigits ks.length).length + 15)
        ((ks.headD []).map (fun _ => Seg.mk [] "KC_TRANSPARENT".data []))]).headD
        []).length)) = false := by
    rw [List.any_eq_false]
    intro t ht
    simp only [hhead2]
    simp [hall t ht]
  have hwT : tryParseKeymapsTextWithEnd
      (text.take endPos ++ ",\n [".data ++ natDigits ks.length ++ "] = KEYMAP(".data ++
        joinComma ((ks.headD []).map (fun _ => "KC_TRANSPARENT".data)) ++ ")".data ++
        text.drop endPos) none =
      .ok (ks ++ [segNodes (endPos + (natDigits ks.length).length + 15)
          ((ks.headD []).map (fun _ => Seg.mk [] "KC_TRANSPARENT".data []))],
        endPos + (natDigits ks.length).length + 15 +
          (joinComma ((ks.headD []).map (fun _ => "KC_TRANSPARENT".data))).length + 1) := by
    unfold tryParseKeymapsTextWithEnd
    simp only [hscanT]
    rw [if_pos (by simp), if_neg ?hc]
    case hc =>
      intro hcontra
      rw [hcontra] at hany2
      cases hany2
  have hparseT : tryParseKeymapsText
      (text.take endPos ++ ",\n [".data ++ natDigits ks.length ++ "] = KEYMAP(".data ++
        joinComma ((ks.headD []).map (fun _ => "KC_TRANSPARENT".data)) ++ ")".data ++
        text.drop endPos) none =
      .ok (ks ++ [segNodes (endPos + (natDigits ks.length).length + 15)
          ((ks.headD []).map (fun _ => Seg.mk [] "KC_TRANSPARENT".data []))]) := by
    unfold tryParseKeymapsText
    rw [hwT]
  refine ⟨hclose.1, hsplice,
    segNodes (endPos + (natDigits ks.length).length + 15)
      ((ks.headD []).map (fun _ => Seg.mk [] "KC_TRANSPARENT".data [])),
    ?_, by simp, hnlen, hall, ?_⟩
  · rw [hsplice]
    exact hparseT
  · intro node hn
    exact segNodes_placeholder_content "KC_TRANSPARENT".data (ks.headD []) _ node hn

end Keymapc

namespace Keymapc

/-- C7 witness: on `"KEYMAP(KC_A, KC_B)"` the parse succeeds with one
layer ending at cursor 18, and the appended-layer conclusion holds
there. -/
theorem addLayer_appends_placeholder_layer_witness :
    tryParseKeymapsTextWithEnd "KEYMAP(KC_A, KC_B)".data none =
      .ok ([[AstNode.word "KC_A".data 7 11, AstNode.word "KC_B".data 13 17]], 18) ∧
    ("KEYMAP(KC_A, KC_B)".data.get? (18 - 1) = some ')' ∧
      addLayerKeymaps "KEYMAP(KC_A, KC_B)".data =
        "KEYMAP(KC_A, KC_B)".data.take 18 ++ ",\n [".data ++
          natDigits [[AstNode.word "KC_A".data 7 11,
            AstNode.word "KC_B".data 13 17]].length ++ "] = KEYMAP(".data ++
          joinComma (([[AstNode.word "KC_A".data 7 11,
            AstNode.word "KC_B".data 13 17]].headD []).map
            (fun _ => "KC_TRANSPARENT".data)) ++ ")".data ++
          "KEYMAP(KC_A, KC_B)".data.drop 18 ∧
      ∃ newLayer : List AstNode,
        tryParseKeymapsText (addLayerKeymaps "KEYMAP(KC_A, KC_B)".data) none =
          .ok ([[AstNode.word "KC_A".data 7 11, AstNode.word "KC_B".data 13 17]] ++
            [newLayer]) ∧
        ([[AstNode.word "KC_A".data 7 11, AstNode.word "KC_B".data 13 17]] ++
          [newLayer]).length =
          [[AstNode.word "KC_A".data 7 11, AstNode.word "KC_B".data 13 17]].length + 1 ∧
        newLayer.length = ([[AstNode.word "KC_A".data 7 11,
          AstNode.word "KC_B".data 13 17]].headD []).length ∧
        (∀ layer ∈ [[AstNode.word "KC_A".data 7 11, AstNode.word "KC_B".data 13 17]] ++
          [newLayer], layer.length = ([[AstNode.word "KC_A".data 7 11,
            AstNode.word "KC_B".data 13 17]].headD []).length) ∧
        ∀ node ∈ newLayer, node.content = "KC_TRANSPARENT".data) :=
  ⟨by rfl, addLayer_appends_placeholder_layer "KEYMAP(KC_A, KC_B)".data
    [[AstNode.word "KC_A".data 7 11, AstNode.word "KC_B".data 13 17]] 18 (by rfl)⟩

end Keymapc
